import Mathlib

/-!
Verification of the DFsniper drop watcher.

The repository is a Node/Express service that polls an upstream game-activity
API for rare ("태초") item drops and pushes detected drops to an SSE live
channel and a Discord webhook.  This file gives a shallow embedding of the
core logic and proves/refutes the frozen specification claims about it.

Embedding conventions:
* The watcher variant (`src/unnamed/part_002`) is embedded at top level:
  the dedupe cache (`hasDedupe` / `putDedupe` / the 60s sweep), the polling
  cycle (`handleOneSubscription` with its detection loop), the batched
  item-detail request (`fetchItemsDetail`), the pagination loop of its
  `fetchTimelineAll`, the SSE broadcast and the `setInterval` poll guard.
* The `src/server.js` variant of `fetchTimelineAll` (safe cursor handling:
  query-string extraction, apikey re-attachment, page cap) and its
  `isAncientRarity` classifier are embedded in namespace `ServerJs`.
* Times are Nat milliseconds (`Date.now()`); ISO timestamps are opaque
  strings.  Network calls are oracles passed as function arguments; a
  fallible call is an `Except`.  A polling cycle is modelled as one atomic
  step (the JS runtime is single-threaded; the only interleaving the claims
  exercise — overlapping scheduler ticks — is modelled separately for the
  scheduler guard).
* The JS `Map` used for the dedupe cache is modelled as an association list
  with unique keys; the program never observes the map's iteration order
  except in the expiry sweep, which is order-insensitive, so a
  remove-then-append `set` is observationally equivalent.
-/

namespace DFsniper

/-- POLL_INTERVAL_SEC constant of src/unnamed/part_002 (line 19). -/
def POLL_INTERVAL_SEC : Nat := 15

/-- DEDUPE_TTL_MS constant of src/unnamed/part_002 (line 20): 48 hours. -/
def DEDUPE_TTL_MS : Nat := 2 * 24 * 60 * 60 * 1000

/-- JS truthiness of an optional string: `undefined`/`null` and the empty
string are falsy. `jsStrOpt` normalises a falsy value to `none`. -/
def jsStrOpt (o : Option String) : Option String :=
  match o with
  | none => none
  | some s => if s == "" then none else some s

/-- JS `a || b` on an optional string `a` with string default `b`. -/
def jsOrStr (o : Option String) (d : String) : String :=
  match jsStrOpt o with
  | none => d
  | some s => s

/-- the `sentKeys` map of part_002 (line 81): dedupe key -> expireAt (ms). -/
abbrev SentMap := List (String × Nat)

/-- `sentKeys.get(key)` — lookup of the first (unique) entry for a key. -/
def lookupSent (m : SentMap) (k : String) : Option Nat :=
  match m with
  | [] => none
  | (k', e) :: rest => if k' == k then some e else lookupSent rest k

/-- `sentKeys.delete(key)`. -/
def eraseSent (m : SentMap) (k : String) : SentMap :=
  match m with
  | [] => []
  | (k', e) :: rest => if k' == k then eraseSent rest k else (k', e) :: eraseSent rest k

/-- `sentKeys.set(key, v)`; keys are unique, and iteration order is only
consumed by the order-insensitive sweep, so remove-then-append is an
observationally equivalent representation of `Map.set`. -/
def setSent (m : SentMap) (k : String) (v : Nat) : SentMap :=
  eraseSent m k ++ [(k, v)]

/-- `putDedupe` of part_002 (lines 94-96): reserve a key until now + TTL. -/
def putDedupe (now : Nat) (m : SentMap) (k : String) : SentMap :=
  setSent m k (now + DEDUPE_TTL_MS)

/-- `hasDedupe` of part_002 (lines 97-105).  Returns whether the key counts
as already delivered, together with the map after the lazy expiry deletion.
The `exp == 0` branch mirrors the JS falsy check `if (!exp) return false`
(a `0` expiry would be falsy in JS and is returned without deletion). -/
def hasDedupe (now : Nat) (m : SentMap) (k : String) : Bool × SentMap :=
  match lookupSent m k with
  | none => (false, m)
  | some exp =>
    if exp == 0 then (false, m)
    else if exp < now then (false, eraseSent m k)
    else (true, m)

/-- the periodic sweep of part_002 (lines 106-109): delete expired records. -/
def sweepDedupe (now : Nat) (m : SentMap) : SentMap :=
  m.filter (fun p => !decide (p.2 < now))

/-- `shouldDeliver` — the check-and-reserve pair exactly as the delivery
path of part_002 combines it (line 376 checks `hasDedupe`, line 390
reserves with `putDedupe` for a key that was not seen). -/
def shouldDeliver (now : Nat) (m : SentMap) (k : String) : Bool × SentMap :=
  let hd := hasDedupe now m k
  if hd.1 then (false, hd.2) else (true, putDedupe now hd.2 k)

/-- one upstream timeline entry as consumed by part_002: `ev?.data?.itemId`
and `ev?.date`. -/
structure TimelineEvent where
  itemId : Option String
  date : Option String
deriving DecidableEq

/-- one row of the batched item-detail response: `itemName` and `rarity`. -/
structure ItemInfo where
  itemName : Option String
  rarity : String
deriving DecidableEq

/-- the event payload built in part_002 (lines 378-386). -/
structure DropPayload where
  id : String
  serverId : String
  characterId : String
  itemName : String
  itemId : String
  time : String
deriving DecidableEq

/-- a subscription record: `{serverId, characterId, lastCheckedISO}`. -/
structure Sub where
  serverId : String
  characterId : String
  lastCheckedISO : String
deriving DecidableEq

/-- `makeEventKey` of part_002 (lines 91-93). -/
def makeEventKey (serverId characterId itemId timeISO : String) : String :=
  serverId ++ ":" ++ characterId ++ ":" ++ itemId ++ ":" ++ timeISO

/-- environment of one detection loop: the cycle's clock and end timestamp,
the subscription identity, whether DISCORD_WEBHOOK_URL is configured, an
oracle for the outcome of a webhook POST (keyed by the payload's dedupe
key), and the `byId` detail map built from the detail response. -/
structure CycleCfg where
  now : Nat
  endISO : String
  serverId : String
  characterId : String
  webhookConfigured : Bool
  webhookOk : String → Bool
  byId : String → Option ItemInfo

/-- result of one detection loop (the `for (const ev of events)` loop of
part_002, lines 362-392): SSE broadcasts made, webhook POST attempts made,
webhook POSTs that succeeded, the dedupe map afterwards, and whether the
loop ran to completion (`false` when a webhook POST threw, which aborts
the loop and propagates to the cycle's catch handler). -/
structure LoopOut where
  sse : List DropPayload
  webAttempts : List DropPayload
  web : List DropPayload
  sent : SentMap
  ok : Bool
deriving DecidableEq

/-- the dedupe key the loop computes for an event that passed the
identifier gate (lines 369-375): `serverId:characterId:itemId:timeISO`
with `timeISO = ev?.date || endISO`. -/
def loopKey (cfg : CycleCfg) (itemId : String) (ev : TimelineEvent) : String :=
  makeEventKey cfg.serverId cfg.characterId itemId (jsOrStr ev.date cfg.endISO)

/-- the payload built for a detected drop (lines 378-386). -/
def loopPayload (cfg : CycleCfg) (itemId : String) (info : ItemInfo)
    (ev : TimelineEvent) : DropPayload :=
  ⟨loopKey cfg itemId ev, cfg.serverId, cfg.characterId,
    jsOrStr info.itemName "무명 아이템", itemId, jsOrStr ev.date cfg.endISO⟩

/-- prepend one delivered payload to a loop result: the SSE broadcast
always happened; the webhook attempt (and its success) happened exactly
when an endpoint was configured. -/
def consDeliver (p : DropPayload) (webhook : Bool) (out : LoopOut) : LoopOut :=
  ⟨p :: out.sse, if webhook then p :: out.webAttempts else out.webAttempts,
    if webhook then p :: out.web else out.web, out.sent, out.ok⟩

/-- the detection loop of part_002 (lines 362-392).  Per event: skip on a
falsy `itemId`, skip when the detail map has no record, skip when the
detail rarity is not exactly "태초", skip when `hasDedupe` reports the key
as seen (keeping the lazily-swept map); otherwise broadcast over SSE,
attempt the webhook POST when an endpoint is configured (a failure throws
out of the loop before `putDedupe` runs, so nothing later in the event
list is processed), then reserve the key with `putDedupe`. -/
def cycleLoop (cfg : CycleCfg) (sent : SentMap) : List TimelineEvent → LoopOut
  | [] => ⟨[], [], [], sent, true⟩
  | ev :: rest =>
    match jsStrOpt ev.itemId with
    | none => cycleLoop cfg sent rest
    | some itemId =>
      match cfg.byId itemId with
      | none => cycleLoop cfg sent rest
      | some info =>
        if info.rarity == "태초" then
          if (hasDedupe cfg.now sent (loopKey cfg itemId ev)).1 then
            cycleLoop cfg (hasDedupe cfg.now sent (loopKey cfg itemId ev)).2 rest
          else if cfg.webhookConfigured then
            if cfg.webhookOk (loopKey cfg itemId ev) then
              consDeliver (loopPayload cfg itemId info ev) true
                (cycleLoop cfg
                  (putDedupe cfg.now (hasDedupe cfg.now sent (loopKey cfg itemId ev)).2
                    (loopKey cfg itemId ev)) rest)
            else
              ⟨[loopPayload cfg itemId info ev], [loopPayload cfg itemId info ev], [],
                (hasDedupe cfg.now sent (loopKey cfg itemId ev)).2, false⟩
          else
            consDeliver (loopPayload cfg itemId info ev) false
              (cycleLoop cfg
                (putDedupe cfg.now (hasDedupe cfg.now sent (loopKey cfg itemId ev)).2
                  (loopKey cfg itemId ev)) rest)
        else cycleLoop cfg sent rest

/-- `[...new Set(itemIds)]` — first occurrences, in order. -/
def dedupAux (seen : List String) : List String → List String
  | [] => []
  | x :: xs => if seen.contains x then dedupAux seen xs else x :: dedupAux (x :: seen) xs

/-- `[...new Set(itemIds)]`. -/
def dedupList (xs : List String) : List String := dedupAux [] xs

/-- the identifier list actually requested by `fetchItemsDetail` of
part_002 (line 327): `[...new Set(itemIds)].slice(0, 15)`. -/
def fetchItemsDetailIds (itemIds : List String) : List String :=
  (dedupList itemIds).take 15

/-- `events.map((ev) => ev?.data?.itemId).filter(Boolean)` (line 358). -/
def itemIdsOf (events : List TimelineEvent) : List String :=
  events.filterMap (fun ev => jsStrOpt ev.itemId)

/-- the `byId` map of part_002 (line 360) built from the detail rows: a
detail record exists only for an identifier that was actually requested
and that the upstream oracle `detailOf` knows. -/
def byIdLookup (requested : List String) (detailOf : String → Option ItemInfo)
    (id : String) : Option ItemInfo :=
  if requested.contains id then detailOf id else none

/-- the loop environment `handleOneSubscription` sets up for one cycle. -/
def subCycleCfg (now : Nat) (endISO : String) (webhookConfigured : Bool)
    (webhookOk : String → Bool) (detailOf : String → Option ItemInfo)
    (sub : Sub) (events : List TimelineEvent) : CycleCfg :=
  ⟨now, endISO, sub.serverId, sub.characterId, webhookConfigured, webhookOk,
    byIdLookup (fetchItemsDetailIds (itemIdsOf events)) detailOf⟩

/-- outcome of one polling cycle (`handleOneSubscription`). -/
structure CycleResult where
  sse : List DropPayload
  webAttempts : List DropPayload
  web : List DropPayload
  sent : SentMap
  lastCheckedISO : String
  ok : Bool
deriving DecidableEq

/-- `handleOneSubscription` of part_002 (lines 340-403).  `fetchRes` is the
outcome of the `fetchTimelineAll` call: an error there lands in the catch
handler, which only logs — no deliveries happen, the dedupe map is
untouched and `lastCheckedISO` is not advanced.  On an empty timeline the
cycle succeeds immediately.  Otherwise the detection loop runs;
`lastCheckedISO` advances to `endISO` exactly when the loop completed
without a thrown webhook error. -/
def handleOneSubscription (now : Nat) (endISO : String) (webhookConfigured : Bool)
    (webhookOk : String → Bool) (detailOf : String → Option ItemInfo) (sub : Sub)
    (fetchRes : Except String (List TimelineEvent)) (sent : SentMap) : CycleResult :=
  match fetchRes with
  | .error _ => ⟨[], [], [], sent, sub.lastCheckedISO, false⟩
  | .ok events =>
    if events.isEmpty then ⟨[], [], [], sent, endISO, true⟩
    else
      let out := cycleLoop (subCycleCfg now endISO webhookConfigured webhookOk detailOf sub events)
        sent events
      ⟨out.sse, out.webAttempts, out.web, out.sent,
        if out.ok then endISO else sub.lastCheckedISO, out.ok⟩

/-- one page of the part_002 timeline response: `data.timeline` and
`data.next` (the next-page URL). -/
structure TimelinePage2 where
  timeline : List TimelineEvent
  next : Option String
deriving DecidableEq

/-- the pagination loop of part_002's `fetchTimelineAll` (lines 315-324),
with a fallible upstream oracle indexed by request ordinal.  A transport
error at any page throws out of the loop: the locally collected rows are
discarded and the error propagates. -/
def fetchTimelineAux (respond : Nat → Except String TimelinePage2) :
    Nat → Nat → Except String (List TimelineEvent)
  | _, 0 => .ok []
  | page, Nat.succ fuel =>
    match respond page with
    | .error e => .error e
    | .ok p =>
      match jsStrOpt p.next with
      | none => .ok p.timeline
      | some _ =>
        match fetchTimelineAux respond (page + 1) fuel with
        | .error e => .error e
        | .ok rest => .ok (p.timeline ++ rest)

/-- `fetchTimelineAll` of part_002: at most 10 pages. -/
def fetchTimelineAll (respond : Nat → Except String TimelinePage2) :
    Except String (List TimelineEvent) :=
  fetchTimelineAux respond 0 10

/-- number of occurrences of a dedupe key among delivered payloads. -/
def countKey (k : String) (ps : List DropPayload) : Nat :=
  (ps.filter (fun p => p.id == k)).length

/-- the dedupe key an event would produce in a given cycle, when it passes
the identifier, detail and rarity gates of the detection loop. -/
def eventKeyOf (cfg : CycleCfg) (ev : TimelineEvent) : Option String :=
  match jsStrOpt ev.itemId with
  | none => none
  | some itemId =>
    match cfg.byId itemId with
    | none => none
    | some info =>
      if info.rarity == "태초" then some (loopKey cfg itemId ev) else none

/-- all dedupe keys a cycle's event list produces. -/
def producedKeys (cfg : CycleCfg) (evs : List TimelineEvent) : List String :=
  evs.filterMap (eventKeyOf cfg)

end DFsniper

/-! ## The src/server.js timeline fetcher and rarity classifier -/

namespace ServerJs

/-- lower-cased character list of a string; JS `/.../i` matching of the
ASCII tokens is ASCII case folding, and the Hangul token has no case. -/
def lowerChars (s : String) : List Char := s.toList.map Char.toLower

/-- boolean test that `n` is an initial segment of `h`. -/
def prefEq : List Char → List Char → Bool
  | [], _ => true
  | _ :: _, [] => false
  | a :: as, b :: bs => a == b && prefEq as bs

/-- boolean test that `n` occurs as a contiguous run inside the haystack. -/
def subTok (n : List Char) : List Char → Bool
  | [] => prefEq n []
  | c :: t => prefEq n (c :: t) || subTok n t

/-- `isAncientRarity` of src/server.js (lines 66-68):
`typeof r === "string" && /태초|mythic|ancient/i.test(r)`.  A non-string
input is `none`; the regex test is a case-insensitive substring test for
any of the three alternatives. -/
def isAncientRarity (r : Option String) : Bool :=
  match r with
  | none => false
  | some s =>
    subTok (lowerChars "태초") (lowerChars s) ||
    subTok (lowerChars "mythic") (lowerChars s) ||
    subTok (lowerChars "ancient") (lowerChars s)

/-- the `next` field of a timeline page: missing/falsy, present but not a
string, or a string. -/
inductive NextField where
  | absent
  | nonString
  | str (s : String)
deriving DecidableEq

/-- one upstream response page of the server.js fetcher:
`data.timeline.rows` and `data.timeline.next`. -/
structure TimelinePage (α : Type) where
  rows : List α
  next : NextField
deriving DecidableEq

/-- the halt test of the loop (line 157):
`if (!rawNext || typeof rawNext !== "string") break` — pagination follows
only a truthy string cursor. -/
def cursorOf : NextField → Option String
  | .absent => none
  | .nonString => none
  | .str s => if s == "" then none else some s

/-- characters of a URL query up to the fragment delimiter. -/
def takeUntilHash : List Char → List Char
  | [] => []
  | c :: cs => if c == '#' then [] else c :: takeUntilHash cs

/-- `new URL(...).search`: the part of the URL from the first `?` up to a
`#`, empty when there is no query.  Absolute and relative cursors agree on
this because the canonical host the code prepends to a relative cursor
contains neither `?` nor `#`. -/
def searchOfChars : List Char → List Char
  | [] => []
  | c :: cs =>
    if c == '#' then []
    else if c == '?' then '?' :: takeUntilHash cs
    else searchOfChars cs

/-- query-string extraction from a cursor (step ③ of lines 159-181). -/
def extractSearch (s : String) : String := ⟨searchOfChars s.toList⟩

/-- split a query body at `&` separators. -/
def splitAmpChars : List Char → List (List Char)
  | [] => [[]]
  | c :: cs =>
    if c == '&' then [] :: splitAmpChars cs
    else
      match splitAmpChars cs with
      | [] => [[c]]
      | g :: gs => (c :: g) :: gs

/-- drop the leading `?` of a search string, as `URLSearchParams` does. -/
def dropLeadQ : List Char → List Char
  | [] => []
  | c :: cs => if c == '?' then cs else c :: cs

/-- the name part of one `name=value` query parameter. -/
def paramNameChars (l : List Char) : List Char := l.takeWhile (fun c => !(c == '='))

/-- `new URL(base + qs).searchParams.has("apikey")`, on a query already in
serialized form (the upstream cursor echoes parameters literally, so no
percent-decoding is modelled). -/
def hasApikeyParamChars (qs : List Char) : Bool :=
  (splitAmpChars (dropLeadQ qs)).any (fun g => paramNameChars g == "apikey".toList)

/-- string form of the `apikey` parameter test. -/
def hasApikeyParam (qs : String) : Bool := hasApikeyParamChars qs.toList

/-- steps ③ and ④ of the loop (lines 159-189): extract the cursor's query
string, graft it onto the canonical base, and append the credential when
the cursor omitted it (`searchParams.set("apikey", ...)`; `URL.toString()`
serializes an already-encoded query unchanged). -/
def resolveNextUrl (base apikey rawNext : String) : String :=
  let qs := extractSearch rawNext
  if hasApikeyParam qs then base ++ qs
  else if qs == "" then base ++ "?apikey=" ++ apikey
  else base ++ qs ++ "&apikey=" ++ apikey

/-- result of the server.js fetch loop: the concatenated rows, the
normalized URLs assigned for follow-up requests, and how many pages were
fetched. -/
structure FetchOut (α : Type) where
  entries : List α
  urls : List String
  pagesFetched : Nat
deriving DecidableEq

/-- the `for (let page = 0; page < 10; page++)` loop of src/server.js
`fetchTimelineAll` (lines 147-190), with the upstream as an oracle indexed
by request ordinal. -/
def fetchPagesAux (base apikey : String) (respond : Nat → TimelinePage α) :
    Nat → Nat → FetchOut α
  | _, 0 => ⟨[], [], 0⟩
  | page, Nat.succ fuel =>
    match cursorOf (respond page).next with
    | none => ⟨(respond page).rows, [], 1⟩
    | some rawNext =>
      ⟨(respond page).rows ++ (fetchPagesAux base apikey respond (page + 1) fuel).entries,
        resolveNextUrl base apikey rawNext ::
          (fetchPagesAux base apikey respond (page + 1) fuel).urls,
        (fetchPagesAux base apikey respond (page + 1) fuel).pagesFetched + 1⟩

/-- `fetchTimelineAll` of src/server.js: page cap 10. -/
def fetchTimelineAll (base apikey : String) (respond : Nat → TimelinePage α) : FetchOut α :=
  fetchPagesAux base apikey respond 0 10

end ServerJs

/-! ## The part_002 poll scheduler guard -/


namespace DFsniper

/-- the due-check/start step of the `setInterval` poll loop of part_002
(lines 543-552) for one subscription: at a tick at wall-clock `t`, skip
when `t - last < POLL_INTERVAL_SEC * 1000 - 200`, else start a cycle and
record `_lastRunAt = t`.  Node's `setInterval` fires the (async) callback
every 1000 ms without awaiting the previous invocation, so the guard is
re-evaluated on wall-clock ticks independently of cycle completion. -/
def runScheduler (last : Nat) : List Nat → List Nat
  | [] => []
  | t :: ts =>
    if t - last < POLL_INTERVAL_SEC * 1000 - 200 then runScheduler last ts
    else t :: runScheduler t ts

/-- tick times of the 1000 ms `setInterval`: 1000, 2000, ..., 1000·n. -/
def tickList (n : Nat) : List Nat := (List.range n).map (fun i => 1000 * (i + 1))

/-- cycles never overlap: each cycle (start time plus its duration) ends
no later than the next cycle's start. -/
def noOverlap (starts : List Nat) (dur : Nat → Nat) : Prop :=
  ∀ j, j + 1 < starts.length → starts.getD j 0 + dur j ≤ starts.getD (j + 1) 0

end DFsniper

/-! ## The SSE broadcaster of part_002 -/

namespace DFsniper

/-- `sseBroadcast` of part_002 (lines 83-90) over the current consumer
set, with each consumer's `res.write` outcome given by an oracle: a throw
is swallowed by the per-consumer `try/catch` and iteration continues.  The
returned list is the set of consumers the payload was delivered to; the
function is total — no failure reaches the caller. -/
def sseBroadcast (clients : List String) (write : String → Except String Unit) :
    List String :=
  match clients with
  | [] => []
  | c :: cs =>
    match write c with
    | .ok _ => c :: sseBroadcast cs write
    | .error _ => sseBroadcast cs write

/-- `sseClients.delete(res)` on the close signal (line 150). -/
def sseDelete (clients : List String) (c : String) : List String :=
  clients.filter (fun x => !(x == c))

end DFsniper

section SanityChecks

open DFsniper

example : hasDedupe 5 [("k", 3)] "k" = (false, []) := by decide

example : hasDedupe 5 [("k", 7)] "k" = (true, [("k", 7)]) := by decide

example : fetchItemsDetailIds ["a", "b", "a", "c"] = ["a", "b", "c"] := by decide

example : ServerJs.isAncientRarity (some "MYTHIC sword") = true := by decide

example : ServerJs.isAncientRarity (some "epic") = false := by decide

example : ServerJs.isAncientRarity (some "태초") = true := by decide

example : ServerJs.extractSearch "/df/servers/x/timeline?limit=50&next=abc" = "?limit=50&next=abc" := by decide

example : ServerJs.resolveNextUrl "B" "K" "p?limit=1" = "B?limit=1&apikey=K" := by decide

example : ServerJs.resolveNextUrl "B" "K" "p?apikey=Z&limit=1" = "B?apikey=Z&limit=1" := by decide

example : runScheduler 0 (tickList 30) = [15000, 30000] := by decide

example : sseBroadcast ["a", "b", "c"] (fun c => if c == "b" then .error "x" else .ok ()) = ["a", "c"] := by decide

end SanityChecks

/-! ## Helper lemmas about the dedupe map -/

namespace DFsniper

theorem lookupSent_erase_self (m : SentMap) (k : String) :
    lookupSent (eraseSent m k) k = none := by
  induction m with
  | nil => rfl
  | cons p rest ih =>
    obtain ⟨k', e⟩ := p
    by_cases h : k' = k
    · simp [eraseSent, h, ih]
    · simp [eraseSent, lookupSent, h, ih]

theorem lookupSent_erase_ne (m : SentMap) {k' k : String} (h : k' ≠ k) :
    lookupSent (eraseSent m k') k = lookupSent m k := by
  induction m with
  | nil => rfl
  | cons p rest ih =>
    obtain ⟨k0, e⟩ := p
    by_cases h0 : k0 = k'
    · have hk : k0 ≠ k := by rw [h0]; exact h
      have e1 : eraseSent ((k0, e) :: rest) k' = eraseSent rest k' := by
        simp [eraseSent, h0]
      have e2 : lookupSent ((k0, e) :: rest) k = lookupSent rest k := by
        simp [lookupSent, hk]
      rw [e1, e2, ih]
    · have e1 : eraseSent ((k0, e) :: rest) k' = (k0, e) :: eraseSent rest k' := by
        simp [eraseSent, h0]
      rw [e1]
      by_cases h1 : k0 = k
      · simp [lookupSent, h1]
      · simp [lookupSent, h1, ih]

theorem lookupSent_append (m1 m2 : SentMap) (k : String) :
    lookupSent (m1 ++ m2) k =
      (match lookupSent m1 k with
        | some e => some e
        | none => lookupSent m2 k) := by
  induction m1 with
  | nil => rfl
  | cons p rest ih =>
    obtain ⟨k0, e⟩ := p
    by_cases h : k0 = k
    · simp [lookupSent, h]
    · simp [lookupSent, h, ih]

theorem lookupSent_set_self (m : SentMap) (k : String) (v : Nat) :
    lookupSent (setSent m k v) k = some v := by
  unfold setSent
  rw [lookupSent_append, lookupSent_erase_self]
  simp [lookupSent]

theorem lookupSent_set_ne (m : SentMap) {k' k : String} (v : Nat) (h : k' ≠ k) :
    lookupSent (setSent m k' v) k = lookupSent m k := by
  unfold setSent
  rw [lookupSent_append, lookupSent_erase_ne m h]
  cases hm : lookupSent m k with
  | some e => rfl
  | none => simp [lookupSent, h]

/-- the hit decision of `hasDedupe` depends only on the looked-up expiry. -/
def dedupeHit (now : Nat) (o : Option Nat) : Bool :=
  match o with
  | none => false
  | some e => if e == 0 then false else if e < now then false else true

theorem hasDedupe_fst (now : Nat) (m : SentMap) (k : String) :
    (hasDedupe now m k).1 = dedupeHit now (lookupSent m k) := by
  unfold hasDedupe dedupeHit
  cases lookupSent m k with
  | none => rfl
  | some e =>
    by_cases h0 : e = 0
    · simp [h0]
    · by_cases h1 : e < now <;> simp [h0, h1]

theorem hasDedupe_of_unexpired (now : Nat) (m : SentMap) (k : String) (e : Nat)
    (hl : lookupSent m k = some e) (h0 : e ≠ 0) (hx : ¬ e < now) :
    hasDedupe now m k = (true, m) := by
  unfold hasDedupe
  rw [hl]
  simp [h0, hx]

theorem lookupSent_hasDedupe_snd_ne (now : Nat) (m : SentMap) {k' k : String}
    (h : k' ≠ k) : lookupSent (hasDedupe now m k').2 k = lookupSent m k := by
  unfold hasDedupe
  cases hl : lookupSent m k' with
  | none => rfl
  | some e =>
    by_cases h0 : e = 0
    · simp [h0]
    · by_cases h1 : e < now
      · simp [h0, h1, lookupSent_erase_ne m h]
      · simp [h0, h1]

theorem lookupSent_putDedupe_self (now : Nat) (m : SentMap) (k : String) :
    lookupSent (putDedupe now m k) k = some (now + DEDUPE_TTL_MS) :=
  lookupSent_set_self m k _

theorem lookupSent_putDedupe_ne (now : Nat) (m : SentMap) {k' k : String} (h : k' ≠ k) :
    lookupSent (putDedupe now m k') k = lookupSent m k :=
  lookupSent_set_ne m _ h

theorem countKey_nil (k : String) : countKey k [] = 0 := rfl

theorem countKey_cons (k : String) (p : DropPayload) (l : List DropPayload) :
    countKey k (p :: l) = (if p.id = k then 1 else 0) + countKey k l := by
  cases hb : (p.id == k) with
  | true =>
    have h : p.id = k := beq_iff_eq.mp hb
    simp [countKey, List.filter_cons, hb, h]
    omega
  | false =>
    have h : ¬ p.id = k := beq_eq_false_iff_ne.mp hb
    simp [countKey, List.filter_cons, hb, h]

theorem loopPayload_id (cfg : CycleCfg) (itemId : String) (info : ItemInfo)
    (ev : TimelineEvent) : (loopPayload cfg itemId info ev).id = loopKey cfg itemId ev := rfl

/-- a key with an unexpired dedupe record is never delivered to either
sink by a detection loop, never attempted on the webhook, and its record
survives the loop unchanged — whatever the rest of the event list and the
webhook outcomes are. -/
theorem cycleLoop_seen_skip (cfg : CycleCfg) (k : String) (e : Nat)
    (h0 : e ≠ 0) (hx : ¬ e < cfg.now) :
    ∀ (evs : List TimelineEvent) (sent : SentMap), lookupSent sent k = some e →
      countKey k (cycleLoop cfg sent evs).sse = 0 ∧
      countKey k (cycleLoop cfg sent evs).webAttempts = 0 ∧
      countKey k (cycleLoop cfg sent evs).web = 0 ∧
      lookupSent (cycleLoop cfg sent evs).sent k = some e := by
  intro evs
  induction evs with
  | nil => exact fun sent hl => ⟨rfl, rfl, rfl, hl⟩
  | cons ev rest ih =>
    intro sent hl
    cases hev : jsStrOpt ev.itemId with
    | none =>
      have hc : cycleLoop cfg sent (ev :: rest) = cycleLoop cfg sent rest := by
        simp [cycleLoop, hev]
      rw [hc]; exact ih sent hl
    | some itemId =>
      cases hby : cfg.byId itemId with
      | none =>
        have hc : cycleLoop cfg sent (ev :: rest) = cycleLoop cfg sent rest := by
          simp [cycleLoop, hev, hby]
        rw [hc]; exact ih sent hl
      | some info =>
        cases hr : (info.rarity == "태초") with
        | false =>
          have hc : cycleLoop cfg sent (ev :: rest) = cycleLoop cfg sent rest := by
            simp [cycleLoop, hev, hby, hr]
          rw [hc]; exact ih sent hl
        | true =>
          by_cases hkk : loopKey cfg itemId ev = k
          · have hhd : hasDedupe cfg.now sent (loopKey cfg itemId ev) = (true, sent) := by
              rw [hkk]; exact hasDedupe_of_unexpired cfg.now sent k e hl h0 hx
            have hc : cycleLoop cfg sent (ev :: rest) = cycleLoop cfg sent rest := by
              simp [cycleLoop, hev, hby, hr, hhd]
            rw [hc]; exact ih sent hl
          · have hl1 : lookupSent (hasDedupe cfg.now sent (loopKey cfg itemId ev)).2 k = some e := by
              rw [lookupSent_hasDedupe_snd_ne cfg.now sent hkk]; exact hl
            cases hdup : (hasDedupe cfg.now sent (loopKey cfg itemId ev)).1 with
            | true =>
              have hc : cycleLoop cfg sent (ev :: rest) =
                  cycleLoop cfg (hasDedupe cfg.now sent (loopKey cfg itemId ev)).2 rest := by
                simp [cycleLoop, hev, hby, hr, hdup]
              rw [hc]; exact ih _ hl1
            | false =>
              have hl2 : lookupSent (putDedupe cfg.now
                  (hasDedupe cfg.now sent (loopKey cfg itemId ev)).2
                  (loopKey cfg itemId ev)) k = some e := by
                rw [lookupSent_putDedupe_ne cfg.now _ hkk]; exact hl1
              cases hwc : cfg.webhookConfigured with
              | false =>
                have hc : cycleLoop cfg sent (ev :: rest) =
                    consDeliver (loopPayload cfg itemId info ev) false
                      (cycleLoop cfg (putDedupe cfg.now
                        (hasDedupe cfg.now sent (loopKey cfg itemId ev)).2
                        (loopKey cfg itemId ev)) rest) := by
                  simp [cycleLoop, hev, hby, hr, hdup, hwc]
                rw [hc]
                obtain ⟨c1, c2, c3, c4⟩ := ih _ hl2
                simp [consDeliver, countKey_cons, loopPayload_id, hkk, c1, c2, c3, c4]
              | true =>
                cases hwo : cfg.webhookOk (loopKey cfg itemId ev) with
                | true =>
                  have hc : cycleLoop cfg sent (ev :: rest) =
                      consDeliver (loopPayload cfg itemId info ev) true
                        (cycleLoop cfg (putDedupe cfg.now
                          (hasDedupe cfg.now sent (loopKey cfg itemId ev)).2
                          (loopKey cfg itemId ev)) rest) := by
                    simp [cycleLoop, hev, hby, hr, hdup, hwc, hwo]
                  rw [hc]
                  obtain ⟨c1, c2, c3, c4⟩ := ih _ hl2
                  simp [consDeliver, countKey_cons, loopPayload_id, hkk, c1, c2, c3, c4]
                | false =>
                  have hc : cycleLoop cfg sent (ev :: rest) =
                      ⟨[loopPayload cfg itemId info ev], [loopPayload cfg itemId info ev],
                        [], (hasDedupe cfg.now sent (loopKey cfg itemId ev)).2, false⟩ := by
                    simp [cycleLoop, hev, hby, hr, hdup, hwc, hwo]
                  rw [hc]
                  simp [countKey_cons, countKey_nil, loopPayload_id, hkk, hl1]

theorem producedKeys_nil (cfg : CycleCfg) : producedKeys cfg [] = [] := rfl

theorem hasDedupe_fst_congr (now : Nat) (m m' : SentMap) (k : String)
    (h : lookupSent m' k = lookupSent m k) :
    (hasDedupe now m' k).1 = (hasDedupe now m k).1 := by
  rw [hasDedupe_fst, hasDedupe_fst, h]

/-- when every webhook POST succeeds and the endpoint is configured, a key
that is fresh for the dedupe cache (no record, a falsy record, or an
expired record) and that the cycle's event list produces is delivered to
the live channel exactly once and POSTed to the webhook exactly once, and
the loop leaves it reserved until `now + DEDUPE_TTL_MS`. -/
theorem cycleLoop_first_delivery (cfg : CycleCfg) (k : String)
    (hwc : cfg.webhookConfigured = true) (hwo : ∀ s, cfg.webhookOk s = true) :
    ∀ (evs : List TimelineEvent) (sent : SentMap),
      (hasDedupe cfg.now sent k).1 = false →
      k ∈ producedKeys cfg evs →
      countKey k (cycleLoop cfg sent evs).sse = 1 ∧
      countKey k (cycleLoop cfg sent evs).webAttempts = 1 ∧
      countKey k (cycleLoop cfg sent evs).web = 1 ∧
      lookupSent (cycleLoop cfg sent evs).sent k = some (cfg.now + DEDUPE_TTL_MS) := by
  intro evs
  induction evs with
  | nil => exact fun sent _ hk => absurd hk (by simp [producedKeys])
  | cons ev rest ih =>
    intro sent hfr hk
    cases hev : jsStrOpt ev.itemId with
    | none =>
      have hkey : eventKeyOf cfg ev = none := by simp [eventKeyOf, hev]
      have hk' : k ∈ producedKeys cfg rest := by
        simpa [producedKeys, List.filterMap_cons, hkey] using hk
      have hc : cycleLoop cfg sent (ev :: rest) = cycleLoop cfg sent rest := by
        simp [cycleLoop, hev]
      rw [hc]; exact ih sent hfr hk'
    | some itemId =>
      cases hby : cfg.byId itemId with
      | none =>
        have hkey : eventKeyOf cfg ev = none := by simp [eventKeyOf, hev, hby]
        have hk' : k ∈ producedKeys cfg rest := by
          simpa [producedKeys, List.filterMap_cons, hkey] using hk
        have hc : cycleLoop cfg sent (ev :: rest) = cycleLoop cfg sent rest := by
          simp [cycleLoop, hev, hby]
        rw [hc]; exact ih sent hfr hk'
      | some info =>
        cases hr : (info.rarity == "태초") with
        | false =>
          have hkey : eventKeyOf cfg ev = none := by simp [eventKeyOf, hev, hby, hr]
          have hk' : k ∈ producedKeys cfg rest := by
            simpa [producedKeys, List.filterMap_cons, hkey] using hk
          have hc : cycleLoop cfg sent (ev :: rest) = cycleLoop cfg sent rest := by
            simp [cycleLoop, hev, hby, hr]
          rw [hc]; exact ih sent hfr hk'
        | true =>
          by_cases hkk : loopKey cfg itemId ev = k
          · have hdup : (hasDedupe cfg.now sent (loopKey cfg itemId ev)).1 = false := by
              rw [hkk]; exact hfr
            have hc : cycleLoop cfg sent (ev :: rest) =
                consDeliver (loopPayload cfg itemId info ev) true
                  (cycleLoop cfg (putDedupe cfg.now
                    (hasDedupe cfg.now sent (loopKey cfg itemId ev)).2
                    (loopKey cfg itemId ev)) rest) := by
              simp [cycleLoop, hev, hby, hr, hdup, hwc, hwo]
            rw [hc]
            have hl2 : lookupSent (putDedupe cfg.now
                (hasDedupe cfg.now sent (loopKey cfg itemId ev)).2
                (loopKey cfg itemId ev)) k = some (cfg.now + DEDUPE_TTL_MS) := by
              rw [hkk]; exact lookupSent_putDedupe_self cfg.now _ k
            have h0 : cfg.now + DEDUPE_TTL_MS ≠ 0 := by unfold DEDUPE_TTL_MS; omega
            have hx : ¬ cfg.now + DEDUPE_TTL_MS < cfg.now := by omega
            obtain ⟨c1, c2, c3, c4⟩ := cycleLoop_seen_skip cfg k _ h0 hx rest _ hl2
            rw [hkk] at c1 c2 c3 c4
            simp [consDeliver, countKey_cons, loopPayload_id, hkk, c1, c2, c3, c4]
          · have hkey : eventKeyOf cfg ev = some (loopKey cfg itemId ev) := by
              simp [eventKeyOf, hev, hby, hr]
            have hne : ¬ k = loopKey cfg itemId ev := fun hh => hkk hh.symm
            have hk' : k ∈ producedKeys cfg rest := by
              simpa [producedKeys, List.filterMap_cons, hkey, hne] using hk
            cases hdup : (hasDedupe cfg.now sent (loopKey cfg itemId ev)).1 with
            | true =>
              have hfr' : (hasDedupe cfg.now
                  (hasDedupe cfg.now sent (loopKey cfg itemId ev)).2 k).1 = false := by
                rw [hasDedupe_fst_congr cfg.now sent _ k
                  (lookupSent_hasDedupe_snd_ne cfg.now sent hkk)]
                exact hfr
              have hc : cycleLoop cfg sent (ev :: rest) =
                  cycleLoop cfg (hasDedupe cfg.now sent (loopKey cfg itemId ev)).2 rest := by
                simp [cycleLoop, hev, hby, hr, hdup]
              rw [hc]; exact ih _ hfr' hk'
            | false =>
              have hfr' : (hasDedupe cfg.now (putDedupe cfg.now
                  (hasDedupe cfg.now sent (loopKey cfg itemId ev)).2
                  (loopKey cfg itemId ev)) k).1 = false := by
                rw [hasDedupe_fst, lookupSent_putDedupe_ne cfg.now _ hkk,
                  lookupSent_hasDedupe_snd_ne cfg.now sent hkk, ← hasDedupe_fst]
                exact hfr
              have hc : cycleLoop cfg sent (ev :: rest) =
                  consDeliver (loopPayload cfg itemId info ev) true
                    (cycleLoop cfg (putDedupe cfg.now
                      (hasDedupe cfg.now sent (loopKey cfg itemId ev)).2
                      (loopKey cfg itemId ev)) rest) := by
                simp [cycleLoop, hev, hby, hr, hdup, hwc, hwo]
              rw [hc]
              obtain ⟨c1, c2, c3, c4⟩ := ih _ hfr' hk'
              simp [consDeliver, countKey_cons, loopPayload_id, hkk, c1, c2, c3, c4]

theorem loopPayload_itemId (cfg : CycleCfg) (itemId : String) (info : ItemInfo)
    (ev : TimelineEvent) : (loopPayload cfg itemId info ev).itemId = itemId := rfl

/-- every payload a detection loop broadcasts corresponds to a detail
record whose rarity is exactly "태초". -/
theorem cycleLoop_sse_sound (cfg : CycleCfg) :
    ∀ (evs : List TimelineEvent) (sent : SentMap) (p : DropPayload),
      p ∈ (cycleLoop cfg sent evs).sse →
      ∃ info, cfg.byId p.itemId = some info ∧ info.rarity = "태초" := by
  intro evs
  induction evs with
  | nil => intro sent p hp; exact absurd hp (by simp [cycleLoop])
  | cons ev rest ih =>
    intro sent p hp
    cases hev : jsStrOpt ev.itemId with
    | none =>
      rw [show cycleLoop cfg sent (ev :: rest) = cycleLoop cfg sent rest by
        simp [cycleLoop, hev]] at hp
      exact ih sent p hp
    | some itemId =>
      cases hby : cfg.byId itemId with
      | none =>
        rw [show cycleLoop cfg sent (ev :: rest) = cycleLoop cfg sent rest by
          simp [cycleLoop, hev, hby]] at hp
        exact ih sent p hp
      | some info =>
        cases hr : (info.rarity == "태초") with
        | false =>
          rw [show cycleLoop cfg sent (ev :: rest) = cycleLoop cfg sent rest by
            simp [cycleLoop, hev, hby, hr]] at hp
          exact ih sent p hp
        | true =>
          have hrar : info.rarity = "태초" := beq_iff_eq.mp hr
          cases hdup : (hasDedupe cfg.now sent (loopKey cfg itemId ev)).1 with
          | true =>
            rw [show cycleLoop cfg sent (ev :: rest) =
                cycleLoop cfg (hasDedupe cfg.now sent (loopKey cfg itemId ev)).2 rest by
              simp [cycleLoop, hev, hby, hr, hdup]] at hp
            exact ih _ p hp
          | false =>
            cases hwc : cfg.webhookConfigured with
            | false =>
              rw [show cycleLoop cfg sent (ev :: rest) =
                  consDeliver (loopPayload cfg itemId info ev) false
                    (cycleLoop cfg (putDedupe cfg.now
                      (hasDedupe cfg.now sent (loopKey cfg itemId ev)).2
                      (loopKey cfg itemId ev)) rest) by
                simp [cycleLoop, hev, hby, hr, hdup, hwc]] at hp
              simp only [consDeliver, List.mem_cons] at hp
              rcases hp with hp | hp
              · exact ⟨info, by rw [hp, loopPayload_itemId, hby], hrar⟩
              · exact ih _ p hp
            | true =>
              cases hwo : cfg.webhookOk (loopKey cfg itemId ev) with
              | true =>
                rw [show cycleLoop cfg sent (ev :: rest) =
                    consDeliver (loopPayload cfg itemId info ev) true
                      (cycleLoop cfg (putDedupe cfg.now
                        (hasDedupe cfg.now sent (loopKey cfg itemId ev)).2
                        (loopKey cfg itemId ev)) rest) by
                  simp [cycleLoop, hev, hby, hr, hdup, hwc, hwo]] at hp
                simp only [consDeliver, List.mem_cons] at hp
                rcases hp with hp | hp
                · exact ⟨info, by rw [hp, loopPayload_itemId, hby], hrar⟩
                · exact ih _ p hp
              | false =>
                rw [show cycleLoop cfg sent (ev :: rest) =
                    ⟨[loopPayload cfg itemId info ev], [loopPayload cfg itemId info ev],
                      [], (hasDedupe cfg.now sent (loopKey cfg itemId ev)).2, false⟩ by
                  simp [cycleLoop, hev, hby, hr, hdup, hwc, hwo]] at hp
                simp only [List.mem_singleton] at hp
                exact ⟨info, by rw [hp, loopPayload_itemId, hby], hrar⟩

/-- the loop never attempts the webhook more than once per dedupe key. -/
theorem cycleLoop_attempts_le_one (cfg : CycleCfg) (k : String) :
    ∀ (evs : List TimelineEvent) (sent : SentMap),
      countKey k (cycleLoop cfg sent evs).webAttempts ≤ 1 := by
  intro evs
  induction evs with
  | nil => intro sent; simp [cycleLoop, countKey]
  | cons ev rest ih =>
    intro sent
    cases hev : jsStrOpt ev.itemId with
    | none =>
      rw [show cycleLoop cfg sent (ev :: rest) = cycleLoop cfg sent rest by
        simp [cycleLoop, hev]]
      exact ih sent
    | some itemId =>
      cases hby : cfg.byId itemId with
      | none =>
        rw [show cycleLoop cfg sent (ev :: rest) = cycleLoop cfg sent rest by
          simp [cycleLoop, hev, hby]]
        exact ih sent
      | some info =>
        cases hr : (info.rarity == "태초") with
        | false =>
          rw [show cycleLoop cfg sent (ev :: rest) = cycleLoop cfg sent rest by
            simp [cycleLoop, hev, hby, hr]]
          exact ih sent
        | true =>
          cases hdup : (hasDedupe cfg.now sent (loopKey cfg itemId ev)).1 with
          | true =>
            rw [show cycleLoop cfg sent (ev :: rest) =
                cycleLoop cfg (hasDedupe cfg.now sent (loopKey cfg itemId ev)).2 rest by
              simp [cycleLoop, hev, hby, hr, hdup]]
            exact ih _
          | false =>
            cases hwc : cfg.webhookConfigured with
            | false =>
              rw [show cycleLoop cfg sent (ev :: rest) =
                  consDeliver (loopPayload cfg itemId info ev) false
                    (cycleLoop cfg (putDedupe cfg.now
                      (hasDedupe cfg.now sent (loopKey cfg itemId ev)).2
                      (loopKey cfg itemId ev)) rest) by
                simp [cycleLoop, hev, hby, hr, hdup, hwc]]
              simpa [consDeliver] using ih _
            | true =>
              cases hwo : cfg.webhookOk (loopKey cfg itemId ev) with
              | true =>
                rw [show cycleLoop cfg sent (ev :: rest) =
                    consDeliver (loopPayload cfg itemId info ev) true
                      (cycleLoop cfg (putDedupe cfg.now
                        (hasDedupe cfg.now sent (loopKey cfg itemId ev)).2
                        (loopKey cfg itemId ev)) rest) by
                  simp [cycleLoop, hev, hby, hr, hdup, hwc, hwo]]
                by_cases hkk : loopKey cfg itemId ev = k
                · have h0 : cfg.now + DEDUPE_TTL_MS ≠ 0 := by unfold DEDUPE_TTL_MS; omega
                  have hx : ¬ cfg.now + DEDUPE_TTL_MS < cfg.now := by omega
                  have hl2 : lookupSent (putDedupe cfg.now
                      (hasDedupe cfg.now sent (loopKey cfg itemId ev)).2
                      (loopKey cfg itemId ev)) k = some (cfg.now + DEDUPE_TTL_MS) := by
                    rw [hkk]; exact lookupSent_putDedupe_self cfg.now _ k
                  obtain ⟨_, c2, _, _⟩ := cycleLoop_seen_skip cfg k _ h0 hx rest _ hl2
                  rw [hkk] at c2
                  simp [consDeliver, countKey_cons, loopPayload_id, hkk, c2]
                · have := ih (putDedupe cfg.now
                    (hasDedupe cfg.now sent (loopKey cfg itemId ev)).2
                    (loopKey cfg itemId ev))
                  simpa [consDeliver, countKey_cons, loopPayload_id, hkk] using this
              | false =>
                rw [show cycleLoop cfg sent (ev :: rest) =
                    ⟨[loopPayload cfg itemId info ev], [loopPayload cfg itemId info ev],
                      [], (hasDedupe cfg.now sent (loopKey cfg itemId ev)).2, false⟩ by
                  simp [cycleLoop, hev, hby, hr, hdup, hwc, hwo]]
                by_cases hkk : (loopPayload cfg itemId info ev).id = k
                · simp [countKey_cons, countKey_nil, hkk]
                · simp [countKey_cons, countKey_nil, hkk]

/-- with no webhook endpoint configured, the loop makes no outbound
webhook attempt at all. -/
theorem cycleLoop_noweb_attempts (cfg : CycleCfg) (hwc : cfg.webhookConfigured = false) :
    ∀ (evs : List TimelineEvent) (sent : SentMap),
      (cycleLoop cfg sent evs).webAttempts = [] := by
  intro evs
  induction evs with
  | nil => intro sent; rfl
  | cons ev rest ih =>
    intro sent
    cases hev : jsStrOpt ev.itemId with
    | none =>
      rw [show cycleLoop cfg sent (ev :: rest) = cycleLoop cfg sent rest by
        simp [cycleLoop, hev]]
      exact ih sent
    | some itemId =>
      cases hby : cfg.byId itemId with
      | none =>
        rw [show cycleLoop cfg sent (ev :: rest) = cycleLoop cfg sent rest by
          simp [cycleLoop, hev, hby]]
        exact ih sent
      | some info =>
        cases hr : (info.rarity == "태초") with
        | false =>
          rw [show cycleLoop cfg sent (ev :: rest) = cycleLoop cfg sent rest by
            simp [cycleLoop, hev, hby, hr]]
          exact ih sent
        | true =>
          cases hdup : (hasDedupe cfg.now sent (loopKey cfg itemId ev)).1 with
          | true =>
            rw [show cycleLoop cfg sent (ev :: rest) =
                cycleLoop cfg (hasDedupe cfg.now sent (loopKey cfg itemId ev)).2 rest by
              simp [cycleLoop, hev, hby, hr, hdup]]
            exact ih _
          | false =>
            rw [show cycleLoop cfg sent (ev :: rest) =
                consDeliver (loopPayload cfg itemId info ev) false
                  (cycleLoop cfg (putDedupe cfg.now
                    (hasDedupe cfg.now sent (loopKey cfg itemId ev)).2
                    (loopKey cfg itemId ev)) rest) by
              simp [cycleLoop, hev, hby, hr, hdup, hwc]]
            simpa [consDeliver] using ih _

/-- a cycle's `lastCheckedISO` ends up at `endISO` exactly when it
completed successfully, and is otherwise the previous value. -/
theorem handleOneSubscription_lastChecked (now : Nat) (endISO : String)
    (webhookConfigured : Bool) (webhookOk : String → Bool)
    (detailOf : String → Option ItemInfo) (sub : Sub)
    (fetchRes : Except String (List TimelineEvent)) (sent : SentMap) :
    (handleOneSubscription now endISO webhookConfigured webhookOk detailOf sub
        fetchRes sent).lastCheckedISO =
      (if (handleOneSubscription now endISO webhookConfigured webhookOk detailOf sub
          fetchRes sent).ok then endISO else sub.lastCheckedISO) := by
  cases fetchRes with
  | error e => rfl
  | ok events =>
    cases he : events.isEmpty with
    | true => simp [handleOneSubscription, he]
    | false =>
      cases ho : (cycleLoop (subCycleCfg now endISO webhookConfigured webhookOk detailOf sub events)
          sent events).ok with
      | true => simp [handleOneSubscription, he, ho]
      | false => simp [handleOneSubscription, he, ho]

/-- an upstream error at the first page the loop cannot get past makes the
whole fetch fail: no partial page list is returned. -/
theorem fetchTimelineAux_error (respond : Nat → Except String TimelinePage2) (e : String) :
    ∀ (fuel j page : Nat), j < fuel →
      (∀ i, i < j → ∃ p, respond (page + i) = Except.ok p ∧ jsStrOpt p.next ≠ none) →
      respond (page + j) = Except.error e →
      fetchTimelineAux respond page fuel = Except.error e := by
  intro fuel
  induction fuel with
  | zero => intro j page hj; exact absurd hj (by omega)
  | succ f ihf =>
    intro j page hj hprev herr
    cases j with
    | zero =>
      have hp : respond page = Except.error e := by simpa using herr
      simp [fetchTimelineAux, hp]
    | succ jj =>
      obtain ⟨p, hp, hnext⟩ := hprev 0 (by omega)
      have hp' : respond page = Except.ok p := by simpa using hp
      obtain ⟨s, hs⟩ : ∃ s, jsStrOpt p.next = some s := by
        cases hq : jsStrOpt p.next with
        | none => exact absurd hq hnext
        | some s => exact ⟨s, rfl⟩
      have hrec : fetchTimelineAux respond (page + 1) f = Except.error e := by
        apply ihf jj (page + 1) (by omega)
        · intro i hi
          obtain ⟨q, hq1, hq2⟩ := hprev (i + 1) (by omega)
          refine ⟨q, ?_, hq2⟩
          rw [show page + 1 + i = page + (i + 1) from by omega]
          exact hq1
        · rw [show page + 1 + jj = page + (jj + 1) from by omega]
          exact herr
      simp [fetchTimelineAux, hp', hs, hrec]

end DFsniper

/-! ## Helper lemmas about the server.js pagination loop -/

namespace ServerJs

variable {α : Type}

theorem fetchPagesAux_succ_halt (base apikey : String) (respond : Nat → TimelinePage α)
    (page fuel : Nat) (h : cursorOf (respond page).next = none) :
    fetchPagesAux base apikey respond page (fuel + 1) = ⟨(respond page).rows, [], 1⟩ := by
  simp only [fetchPagesAux, h]

theorem fetchPagesAux_succ_cursor (base apikey : String) (respond : Nat → TimelinePage α)
    (page fuel : Nat) (rawNext : String)
    (h : cursorOf (respond page).next = some rawNext) :
    fetchPagesAux base apikey respond page (fuel + 1) =
      ⟨(respond page).rows ++ (fetchPagesAux base apikey respond (page + 1) fuel).entries,
        resolveNextUrl base apikey rawNext ::
          (fetchPagesAux base apikey respond (page + 1) fuel).urls,
        (fetchPagesAux base apikey respond (page + 1) fuel).pagesFetched + 1⟩ := by
  simp only [fetchPagesAux, h]

theorem fetchPagesAux_pages_le (base apikey : String) (respond : Nat → TimelinePage α) :
    ∀ (fuel page : Nat), (fetchPagesAux base apikey respond page fuel).pagesFetched ≤ fuel := by
  intro fuel
  induction fuel with
  | zero => intro page; simp [fetchPagesAux]
  | succ f ih =>
    intro page
    cases hc : cursorOf (respond page).next with
    | none => simp [fetchPagesAux, hc]
    | some rawNext =>
      have := ih (page + 1)
      simp [fetchPagesAux, hc]
      omega

theorem fetchPagesAux_halt (base apikey : String) (respond : Nat → TimelinePage α) :
    ∀ (fuel j page : Nat), j < fuel →
      (∀ i, i < j → cursorOf (respond (page + i)).next ≠ none) →
      cursorOf (respond (page + j)).next = none →
      (fetchPagesAux base apikey respond page fuel).pagesFetched = j + 1 := by
  intro fuel
  induction fuel with
  | zero => intro j page hj; exact absurd hj (by omega)
  | succ f ih =>
    intro j page hj hprev hnone
    cases j with
    | zero =>
      have hc : cursorOf (respond page).next = none := by simpa using hnone
      simp [fetchPagesAux, hc]
    | succ jj =>
      obtain ⟨s, hs⟩ : ∃ s, cursorOf (respond page).next = some s := by
        have := hprev 0 (by omega)
        cases hq : cursorOf (respond (page + 0)).next with
        | none => exact absurd hq this
        | some s => exact ⟨s, by simpa using hq⟩
      have hrec : (fetchPagesAux base apikey respond (page + 1) f).pagesFetched = jj + 1 := by
        apply ih jj (page + 1) (by omega)
        · intro i hi
          have := hprev (i + 1) (by omega)
          rw [show page + 1 + i = page + (i + 1) from by omega]
          exact this
        · rw [show page + 1 + jj = page + (jj + 1) from by omega]
          exact hnone
      simp [fetchPagesAux, hs, hrec]

theorem fetchPagesAux_all_next (base apikey : String) (respond : Nat → TimelinePage α)
    (h : ∀ i, cursorOf (respond i).next ≠ none) :
    ∀ (fuel page : Nat), (fetchPagesAux base apikey respond page fuel).pagesFetched = fuel := by
  intro fuel
  induction fuel with
  | zero => intro page; simp [fetchPagesAux]
  | succ f ih =>
    intro page
    obtain ⟨s, hs⟩ : ∃ s, cursorOf (respond page).next = some s := by
      cases hq : cursorOf (respond page).next with
      | none => exact absurd hq (h page)
      | some s => exact ⟨s, rfl⟩
    simp [fetchPagesAux, hs, ih (page + 1)]

/-- the two-page scenario: the first page carries a cursor, the second
does not. -/
theorem fetchTimelineAll_two_pages (base apikey : String)
    (respond : Nat → TimelinePage α) (c : String)
    (h0 : cursorOf (respond 0).next = some c)
    (h1 : cursorOf (respond 1).next = none) :
    fetchTimelineAll base apikey respond =
      ⟨(respond 0).rows ++ (respond 1).rows, [resolveNextUrl base apikey c], 2⟩ := by
  have e1 : fetchPagesAux base apikey respond 1 9 = ⟨(respond 1).rows, [], 1⟩ := by
    rw [show (9 : Nat) = 8 + 1 from rfl]
    exact fetchPagesAux_succ_halt base apikey respond 1 8 h1
  unfold fetchTimelineAll
  rw [show (10 : Nat) = 9 + 1 from rfl,
    fetchPagesAux_succ_cursor base apikey respond 0 9 c h0, e1]

theorem strToList_append (a b : String) : (a ++ b).toList = a.toList ++ b.toList :=
  String.data_append a b

theorem takeUntilHash_append (l1 l2 : List Char) (h : '#' ∉ l1) :
    takeUntilHash (l1 ++ l2) = l1 ++ takeUntilHash l2 := by
  induction l1 with
  | nil => rfl
  | cons c cs ih =>
    rw [List.mem_cons, not_or] at h
    have hb : (c == '#') = false := beq_eq_false_iff_ne.mpr (fun hh => h.1 hh.symm)
    simp [takeUntilHash, hb, ih h.2]

theorem takeUntilHash_self (l : List Char) (h : '#' ∉ l) : takeUntilHash l = l := by
  simpa [takeUntilHash] using takeUntilHash_append l [] h

theorem takeUntilHash_no_hash (l : List Char) : '#' ∉ takeUntilHash l := by
  induction l with
  | nil => simp [takeUntilHash]
  | cons c cs ih =>
    by_cases hc : c = '#'
    · simp [takeUntilHash, hc]
    · have hb : (c == '#') = false := beq_eq_false_iff_ne.mpr hc
      simp only [takeUntilHash, hb, if_false]
      intro hmem
      rcases List.mem_cons.mp hmem with hh | hh
      · exact hc hh.symm
      · exact ih hh

theorem searchOfChars_append (l1 l2 : List Char) (h1 : '?' ∉ l1) (h2 : '#' ∉ l1) :
    searchOfChars (l1 ++ l2) = searchOfChars l2 := by
  induction l1 with
  | nil => rfl
  | cons c cs ih =>
    rw [List.mem_cons, not_or] at h1 h2
    have hbq : (c == '?') = false := beq_eq_false_iff_ne.mpr (fun hh => h1.1 hh.symm)
    have hbh : (c == '#') = false := beq_eq_false_iff_ne.mpr (fun hh => h2.1 hh.symm)
    simp [searchOfChars, hbq, hbh, ih h1.2 h2.2]

theorem searchOfChars_quest (l : List Char) :
    searchOfChars ('?' :: l) = '?' :: takeUntilHash l := by
  simp [searchOfChars]

theorem searchOfChars_shape (l : List Char) :
    searchOfChars l = [] ∨ ∃ t, searchOfChars l = '?' :: t ∧ '#' ∉ t := by
  induction l with
  | nil => exact Or.inl rfl
  | cons c cs ih =>
    by_cases hh : c = '#'
    · left; simp [searchOfChars, hh]
    · by_cases hq : c = '?'
      · right
        refine ⟨takeUntilHash cs, ?_, takeUntilHash_no_hash cs⟩
        simp [searchOfChars, hq]
      · have hbq : (c == '?') = false := beq_eq_false_iff_ne.mpr hq
        have hbh : (c == '#') = false := beq_eq_false_iff_ne.mpr hh
        simpa [searchOfChars, hbq, hbh] using ih

theorem splitAmp_ne_nil (l : List Char) : splitAmpChars l ≠ [] := by
  induction l with
  | nil => simp [splitAmpChars]
  | cons c cs ih =>
    by_cases hc : c = '&'
    · simp [splitAmpChars, hc]
    · have hb : (c == '&') = false := beq_eq_false_iff_ne.mpr hc
      cases hq : splitAmpChars cs with
      | nil => exact absurd hq ih
      | cons g gs => simp [splitAmpChars, hb, hq]

theorem splitAmp_append_amp (l1 l2 : List Char) :
    splitAmpChars (l1 ++ '&' :: l2) = splitAmpChars l1 ++ splitAmpChars l2 := by
  induction l1 with
  | nil => simp [splitAmpChars]
  | cons c cs ih =>
    by_cases hc : c = '&'
    · simp [splitAmpChars, hc, ih]
    · have hb : (c == '&') = false := beq_eq_false_iff_ne.mpr hc
      cases hq : splitAmpChars cs with
      | nil => exact absurd hq (splitAmp_ne_nil cs)
      | cons g gs => simp [splitAmpChars, hb, hq, ih]

theorem splitAmp_prefix_noamp (p l : List Char) (h : '&' ∉ p) (g : List Char)
    (gs : List (List Char)) (hl : splitAmpChars l = g :: gs) :
    splitAmpChars (p ++ l) = (p ++ g) :: gs := by
  induction p with
  | nil => simpa using hl
  | cons c cs ih =>
    rw [List.mem_cons, not_or] at h
    have hb : (c == '&') = false := beq_eq_false_iff_ne.mpr (fun hh => h.1 hh.symm)
    simp [splitAmpChars, hb, ih h.2]

theorem paramName_apikey (l : List Char) :
    paramNameChars ("apikey=".toList ++ l) = "apikey".toList := rfl

theorem any_apikey_first (l : List Char) :
    (splitAmpChars ("apikey=".toList ++ l)).any
      (fun g => paramNameChars g == "apikey".toList) = true := by
  obtain ⟨g, gs, hg⟩ : ∃ g gs, splitAmpChars l = g :: gs := by
    cases hq : splitAmpChars l with
    | nil => exact absurd hq (splitAmp_ne_nil l)
    | cons g gs => exact ⟨g, gs, rfl⟩
  rw [splitAmp_prefix_noamp _ _ (by decide) g gs hg, List.any_cons]
  have hp : (paramNameChars ("apikey=".toList ++ g) == "apikey".toList) = true := by
    rw [paramName_apikey]
    exact beq_self_eq_true _
  rw [hp]
  rfl

theorem hasApikeyParam_extractSearch (u : String) :
    hasApikeyParam (extractSearch u) = hasApikeyParamChars (searchOfChars u.toList) := rfl

theorem dropLeadQ_quest (l : List Char) : dropLeadQ ('?' :: l) = l := by
  simp [dropLeadQ]

theorem hasApikeyChars_quest (l : List Char) :
    hasApikeyParamChars ('?' :: l) =
      (splitAmpChars l).any (fun g => paramNameChars g == "apikey".toList) := by
  unfold hasApikeyParamChars
  rw [dropLeadQ_quest]

theorem hasApikey_empty : hasApikeyParam "" = false := rfl

/-- the resolved follow-up URL always carries an `apikey` query parameter:
the cursor's own one when it had it, and the re-attached credential when
the cursor omitted it. -/
theorem hasApikey_resolved (base apikey rawNext : String)
    (hbq : '?' ∉ base.toList) (hbh : '#' ∉ base.toList) :
    hasApikeyParam (extractSearch (resolveNextUrl base apikey rawNext)) = true := by
  rw [hasApikeyParam_extractSearch]
  rcases searchOfChars_shape rawNext.toList with hsh | ⟨t, hsh, ht⟩
  · have hqs : extractSearch rawNext = "" := by
      unfold extractSearch
      rw [hsh]
    have hu : resolveNextUrl base apikey rawNext = base ++ "?apikey=" ++ apikey := by
      simp [resolveNextUrl, hqs, hasApikey_empty]
    rw [hu, strToList_append, strToList_append,
      show ("?apikey=" : String).toList = '?' :: "apikey=".toList from rfl,
      List.append_assoc, List.cons_append,
      searchOfChars_append _ _ hbq hbh, searchOfChars_quest,
      takeUntilHash_append _ _ (by decide), hasApikeyChars_quest]
    exact any_apikey_first _
  · have hqs : extractSearch rawNext = ⟨'?' :: t⟩ := by
      unfold extractSearch
      rw [hsh]
    by_cases hak : hasApikeyParam (extractSearch rawNext) = true
    · have hu : resolveNextUrl base apikey rawNext = base ++ extractSearch rawNext := by
        simp [resolveNextUrl, hak]
      rw [hu, strToList_append, searchOfChars_append _ _ hbq hbh, hqs,
        show (⟨'?' :: t⟩ : String).toList = '?' :: t from rfl,
        searchOfChars_quest, takeUntilHash_self t ht]
      rw [hasApikeyParam_extractSearch, hsh] at hak
      exact hak
    · have hak' : hasApikeyParam (extractSearch rawNext) = false := by
        cases hq : hasApikeyParam (extractSearch rawNext) with
        | true => exact absurd hq hak
        | false => rfl
      have hne : (extractSearch rawNext == "") = false := by
        rw [hqs]
        rfl
      have hu : resolveNextUrl base apikey rawNext =
          base ++ extractSearch rawNext ++ "&apikey=" ++ apikey := by
        simp [resolveNextUrl, hak', hne]
      rw [hu, strToList_append, strToList_append, strToList_append, hqs,
        show (⟨'?' :: t⟩ : String).toList = '?' :: t from rfl,
        show ("&apikey=" : String).toList = '&' :: "apikey=".toList from rfl]
      simp only [List.append_assoc, List.cons_append]
      rw [searchOfChars_append _ _ hbq hbh, searchOfChars_quest, hasApikeyChars_quest,
        takeUntilHash_append _ _ ht]
      have h1 : takeUntilHash ('&' :: ("apikey=".toList ++ apikey.toList)) =
          '&' :: ("apikey=".toList ++ takeUntilHash apikey.toList) := by
        simpa using takeUntilHash_append ('&' :: "apikey=".toList) apikey.toList (by decide)
      rw [h1, splitAmp_append_amp t ("apikey=".toList ++ takeUntilHash apikey.toList),
        List.any_append, any_apikey_first]
      exact Bool.or_true _

/-- the resolved follow-up URL is exactly the canonical base followed by a
query string. -/
theorem resolveNext_suffix (base apikey rawNext : String) :
    ∃ l, (resolveNextUrl base apikey rawNext).toList = base.toList ++ '?' :: l := by
  rcases searchOfChars_shape rawNext.toList with hsh | ⟨t, hsh, ht⟩
  · have hqs : extractSearch rawNext = "" := by
      unfold extractSearch
      rw [hsh]
    have hu : resolveNextUrl base apikey rawNext = base ++ "?apikey=" ++ apikey := by
      simp [resolveNextUrl, hqs, hasApikey_empty]
    refine ⟨"apikey=".toList ++ apikey.toList, ?_⟩
    rw [hu, strToList_append, strToList_append,
      show ("?apikey=" : String).toList = '?' :: "apikey=".toList from rfl,
      List.append_assoc, List.cons_append]
  · have hqs : extractSearch rawNext = ⟨'?' :: t⟩ := by
      unfold extractSearch
      rw [hsh]
    by_cases hak : hasApikeyParam (extractSearch rawNext) = true
    · have hu : resolveNextUrl base apikey rawNext = base ++ extractSearch rawNext := by
        simp [resolveNextUrl, hak]
      refine ⟨t, ?_⟩
      rw [hu, strToList_append, hqs]
      rfl
    · have hak' : hasApikeyParam (extractSearch rawNext) = false := by
        cases hq : hasApikeyParam (extractSearch rawNext) with
        | true => exact absurd hq hak
        | false => rfl
      have hne : (extractSearch rawNext == "") = false := by
        rw [hqs]
        rfl
      have hu : resolveNextUrl base apikey rawNext =
          base ++ extractSearch rawNext ++ "&apikey=" ++ apikey := by
        simp [resolveNextUrl, hak', hne]
      refine ⟨t ++ '&' :: ("apikey=".toList ++ apikey.toList), ?_⟩
      rw [hu, strToList_append, strToList_append, strToList_append, hqs,
        show (⟨'?' :: t⟩ : String).toList = '?' :: t from rfl,
        show ("&apikey=" : String).toList = '&' :: "apikey=".toList from rfl]
      simp only [List.append_assoc, List.cons_append]

theorem prefEq_iff (n : List Char) : ∀ h : List Char, prefEq n h = true ↔ n <+: h := by
  induction n with
  | nil => intro h; simp [prefEq, List.nil_prefix]
  | cons a as ih =>
    intro h
    cases h with
    | nil => simp [prefEq, List.prefix_nil]
    | cons b bs =>
      simp [prefEq, Bool.and_eq_true, beq_iff_eq, ih bs, List.cons_prefix_cons]

theorem subTok_iff (n : List Char) : ∀ h : List Char, subTok n h = true ↔ n <:+: h := by
  intro h
  induction h with
  | nil => simp [subTok, prefEq_iff, List.prefix_nil, List.infix_nil]
  | cons c t iht =>
    simp [subTok, Bool.or_eq_true, prefEq_iff, iht, List.infix_cons_iff]

end ServerJs

/-! ## Helper lemmas about the scheduler guard and the detail batch -/

namespace DFsniper

theorem runScheduler_head_ge (ts : List Nat) :
    ∀ (last s : Nat), (runScheduler last ts).head? = some s →
      last + (POLL_INTERVAL_SEC * 1000 - 200) ≤ s := by
  induction ts with
  | nil => intro last s h; simp [runScheduler] at h
  | cons t ts ih =>
    intro last s h
    by_cases hg : t - last < POLL_INTERVAL_SEC * 1000 - 200
    · rw [show runScheduler last (t :: ts) = runScheduler last ts by
        simp [runScheduler, hg]] at h
      exact ih last s h
    · rw [show runScheduler last (t :: ts) = t :: runScheduler t ts by
        simp [runScheduler, hg]] at h
      have hts : t = s := by simpa using h
      have hD : POLL_INTERVAL_SEC * 1000 - 200 = 14800 := rfl
      rw [hD] at hg ⊢
      omega

/-- consecutive cycle starts of the guard are at least the poll interval
minus the slack apart. -/
theorem runScheduler_chain (ts : List Nat) :
    ∀ last : Nat, List.Chain' (fun a b => a + (POLL_INTERVAL_SEC * 1000 - 200) ≤ b)
      (runScheduler last ts) := by
  induction ts with
  | nil => intro last; simp [runScheduler]
  | cons t ts ih =>
    intro last
    by_cases hg : t - last < POLL_INTERVAL_SEC * 1000 - 200
    · rw [show runScheduler last (t :: ts) = runScheduler last ts by
        simp [runScheduler, hg]]
      exact ih last
    · rw [show runScheduler last (t :: ts) = t :: runScheduler t ts by
        simp [runScheduler, hg]]
      rw [List.chain'_cons']
      exact ⟨fun s hs => runScheduler_head_ge ts t s hs, ih t⟩

theorem stringContains_iff (l : List String) (a : String) :
    l.contains a = true ↔ a ∈ l := by
  simp [List.contains]

theorem dedupAux_sublist (xs : List String) :
    ∀ seen, List.Sublist (dedupAux seen xs) xs := by
  induction xs with
  | nil => intro seen; simp [dedupAux]
  | cons x xs ih =>
    intro seen
    by_cases hm : x ∈ seen
    · rw [show dedupAux seen (x :: xs) = dedupAux seen xs by simp [dedupAux, hm]]
      exact (ih seen).trans (List.sublist_cons_self x xs)
    · rw [show dedupAux seen (x :: xs) = x :: dedupAux (x :: seen) xs by
        simp [dedupAux, hm]]
      exact (ih (x :: seen)).cons₂ x

theorem mem_dedupAux (xs : List String) :
    ∀ seen a, a ∈ dedupAux seen xs → a ∈ xs ∧ a ∉ seen := by
  induction xs with
  | nil => intro seen a h; simp [dedupAux] at h
  | cons x xs ih =>
    intro seen a h
    by_cases hm : x ∈ seen
    · rw [show dedupAux seen (x :: xs) = dedupAux seen xs by simp [dedupAux, hm]] at h
      obtain ⟨h1, h2⟩ := ih seen a h
      exact ⟨List.mem_cons_of_mem x h1, h2⟩
    · rw [show dedupAux seen (x :: xs) = x :: dedupAux (x :: seen) xs by
        simp [dedupAux, hm]] at h
      rcases List.mem_cons.mp h with rfl | h'
      · exact ⟨List.mem_cons_self a xs, hm⟩
      · obtain ⟨h1, h2⟩ := ih (x :: seen) a h'
        exact ⟨List.mem_cons_of_mem x h1, fun hmem => h2 (List.mem_cons_of_mem x hmem)⟩

theorem dedupAux_nodup (xs : List String) : ∀ seen, (dedupAux seen xs).Nodup := by
  induction xs with
  | nil => intro seen; simp [dedupAux]
  | cons x xs ih =>
    intro seen
    by_cases hm : x ∈ seen
    · rw [show dedupAux seen (x :: xs) = dedupAux seen xs by simp [dedupAux, hm]]
      exact ih seen
    · rw [show dedupAux seen (x :: xs) = x :: dedupAux (x :: seen) xs by
        simp [dedupAux, hm]]
      refine List.nodup_cons.mpr ⟨fun hmem => ?_, ih (x :: seen)⟩
      exact (mem_dedupAux xs (x :: seen) x hmem).2 (List.mem_cons_self x seen)

theorem byIdLookup_not_requested (requested : List String)
    (detailOf : String → Option ItemInfo) (id : String) (h : id ∉ requested) :
    byIdLookup requested detailOf id = none := by
  simp [byIdLookup, h]

theorem byIdLookup_some_mem (requested : List String)
    (detailOf : String → Option ItemInfo) (id : String) (info : ItemInfo)
    (h : byIdLookup requested detailOf id = some info) : id ∈ requested := by
  by_cases hm : id ∈ requested
  · exact hm
  · rw [byIdLookup_not_requested requested detailOf id hm] at h
    cases h

theorem handleOneSubscription_eq (now : Nat) (endISO : String) (wc : Bool)
    (wok : String → Bool) (detailOf : String → Option ItemInfo) (sub : Sub)
    (events : List TimelineEvent) (sent : SentMap) (he : events.isEmpty = false) :
    handleOneSubscription now endISO wc wok detailOf sub (.ok events) sent =
      ⟨(cycleLoop (subCycleCfg now endISO wc wok detailOf sub events) sent events).sse,
        (cycleLoop (subCycleCfg now endISO wc wok detailOf sub events) sent events).webAttempts,
        (cycleLoop (subCycleCfg now endISO wc wok detailOf sub events) sent events).web,
        (cycleLoop (subCycleCfg now endISO wc wok detailOf sub events) sent events).sent,
        if (cycleLoop (subCycleCfg now endISO wc wok detailOf sub events) sent events).ok
          then endISO else sub.lastCheckedISO,
        (cycleLoop (subCycleCfg now endISO wc wok detailOf sub events) sent events).ok⟩ := by
  simp [handleOneSubscription, he]

theorem lookupSent_not_mem (m : SentMap) (k : String) (h : k ∉ m.map Prod.fst) :
    lookupSent m k = none := by
  induction m with
  | nil => rfl
  | cons p rest ih =>
    obtain ⟨k0, e0⟩ := p
    rw [List.map_cons, List.mem_cons, not_or] at h
    have hb : (k0 == k) = false := beq_eq_false_iff_ne.mpr (fun hh => h.1 hh.symm)
    simp [lookupSent, hb, ih h.2]

/-- the 60-second sweep removes an expired record, so a later lookup does
not find it (given that keys in the map are unique, as `setSent`
maintains). -/
theorem lookupSent_sweep_expired (now : Nat) (k : String) (e : Nat) (hx : e < now) :
    ∀ m : SentMap, (m.map Prod.fst).Nodup → lookupSent m k = some e →
      lookupSent (sweepDedupe now m) k = none := by
  intro m
  induction m with
  | nil => intro _ hl; cases hl
  | cons p rest ih =>
    intro hnd hl
    obtain ⟨k0, e0⟩ := p
    rw [List.map_cons, List.nodup_cons] at hnd
    obtain ⟨hk0, hndr⟩ := hnd
    by_cases hkk : k0 = k
    · subst hkk
      have he : e0 = e := by simpa [lookupSent] using hl
      subst he
      have hcond : (!decide (e0 < now)) = false := by simp [hx]
      rw [show sweepDedupe now ((k0, e0) :: rest) = sweepDedupe now rest by
        simp only [sweepDedupe, List.filter_cons, hcond]; rfl]
      apply lookupSent_not_mem
      intro hmem
      have hsub : List.Sublist (sweepDedupe now rest) rest := List.filter_sublist rest
      exact hk0 ((hsub.map Prod.fst).subset hmem)
    · have hb : (k0 == k) = false := beq_eq_false_iff_ne.mpr hkk
      have hl' : lookupSent rest k = some e := by simpa [lookupSent, hb] using hl
      cases hcond : (!decide (e0 < now)) with
      | false =>
        rw [show sweepDedupe now ((k0, e0) :: rest) = sweepDedupe now rest by
          simp only [sweepDedupe, List.filter_cons, hcond]; rfl]
        exact ih hndr hl'
      | true =>
        rw [show sweepDedupe now ((k0, e0) :: rest) = (k0, e0) :: sweepDedupe now rest by
          simp only [sweepDedupe, List.filter_cons, hcond]; rfl]
        simp [lookupSent, hb, ih hndr hl']

theorem mem_sseBroadcast (clients : List String) (write : String → Except String Unit)
    (x : String) (hx : x ∈ clients) (hw : write x = .ok ()) :
    x ∈ sseBroadcast clients write := by
  induction clients with
  | nil => cases hx
  | cons c cs ih =>
    rcases List.mem_cons.mp hx with rfl | hx'
    · rw [show sseBroadcast (x :: cs) write = x :: sseBroadcast cs write by
        simp [sseBroadcast, hw]]
      exact List.mem_cons_self x _
    · cases hwc : write c with
      | ok u =>
        rw [show sseBroadcast (c :: cs) write = c :: sseBroadcast cs write by
          simp [sseBroadcast, hwc]]
        exact List.mem_cons_of_mem c (ih hx')
      | error er =>
        rw [show sseBroadcast (c :: cs) write = sseBroadcast cs write by
          simp [sseBroadcast, hwc]]
        exact ih hx'

theorem sseBroadcast_subset (clients : List String) (write : String → Except String Unit)
    (x : String) : x ∈ sseBroadcast clients write → x ∈ clients := by
  induction clients with
  | nil => intro h; cases h
  | cons c cs ih =>
    intro h
    cases hwc : write c with
    | ok u =>
      rw [show sseBroadcast (c :: cs) write = c :: sseBroadcast cs write by
        simp [sseBroadcast, hwc]] at h
      rcases List.mem_cons.mp h with rfl | h'
      · exact List.mem_cons_self x _
      · exact List.mem_cons_of_mem c (ih h')
    | error er =>
      rw [show sseBroadcast (c :: cs) write = sseBroadcast cs write by
        simp [sseBroadcast, hwc]] at h
      exact List.mem_cons_of_mem c (ih h)

theorem not_mem_sseDelete (clients : List String) (c : String) :
    c ∉ sseDelete clients c := by
  simp [sseDelete]

theorem mem_sseDelete_of (clients : List String) (c x : String) (hx : x ∈ clients)
    (hne : x ≠ c) : x ∈ sseDelete clients c := by
  simp [sseDelete, hx, hne]

end DFsniper

/-! ## Claim theorems -/

namespace DFsniper

/-- C8: the dedupe check (the `hasDedupe` lookup combined with the
`putDedupe` reservation, exactly as the delivery path applies them) grants
delivery (`true`) for a key only the first time the key is seen within
the TTL window, reserving it with expiry `now + DEDUPE_TTL_MS` where the
TTL is 48 hours; every later check of the key before expiry returns
`false` and leaves the map unchanged; an expired record is never treated
as seen — the lookup lazily deletes it and the key is granted again as
new; and the periodic sweep also removes an expired record. -/
theorem c8_dedupe_check (m : SentMap) (k : String) (now now2 e : Nat) :
    DEDUPE_TTL_MS = 48 * 60 * 60 * 1000 ∧
    (lookupSent m k = none →
      (shouldDeliver now m k).1 = true ∧
      lookupSent (shouldDeliver now m k).2 k = some (now + DEDUPE_TTL_MS)) ∧
    (lookupSent m k = some e → e ≠ 0 → e < now →
      (shouldDeliver now m k).1 = true ∧
      lookupSent (shouldDeliver now m k).2 k = some (now + DEDUPE_TTL_MS)) ∧
    (lookupSent m k = some e → e ≠ 0 → ¬ e < now2 →
      (shouldDeliver now2 m k).1 = false ∧ (shouldDeliver now2 m k).2 = m) ∧
    (lookupSent m k = some e → e < now → (m.map Prod.fst).Nodup →
      lookupSent (sweepDedupe now m) k = none) := by
  refine ⟨rfl, ?_, ?_, ?_, ?_⟩
  · intro hl
    have hhd : hasDedupe now m k = (false, m) := by
      unfold hasDedupe
      rw [hl]
    constructor
    · simp [shouldDeliver, hhd]
    · simp [shouldDeliver, hhd, lookupSent_putDedupe_self]
  · intro hl h0 hx
    have hb : (e == 0) = false := beq_eq_false_iff_ne.mpr h0
    have hhd : hasDedupe now m k = (false, eraseSent m k) := by
      unfold hasDedupe
      rw [hl]
      simp [hb, hx]
    constructor
    · simp [shouldDeliver, hhd]
    · simp [shouldDeliver, hhd, lookupSent_putDedupe_self]
  · intro hl h0 hx
    have hhd : hasDedupe now2 m k = (true, m) := hasDedupe_of_unexpired now2 m k e hl h0 hx
    constructor
    · simp [shouldDeliver, hhd]
    · simp [shouldDeliver, hhd]
  · intro hl hx hnd
    exact lookupSent_sweep_expired now k e hx m hnd hl

/-- C8 witness: a fresh key is granted and reserved for 48 hours; the same
key is denied while the record lives; after expiry the key is granted
again and the sweep also drops the stale record. -/
theorem c8_dedupe_check_witness :
    ((shouldDeliver 1000 [] "k").1 = true ∧
      lookupSent (shouldDeliver 1000 [] "k").2 "k" = some (1000 + DEDUPE_TTL_MS)) ∧
    ((shouldDeliver 2000 [("k", 1000 + DEDUPE_TTL_MS)] "k").1 = false ∧
      (shouldDeliver 2000 [("k", 1000 + DEDUPE_TTL_MS)] "k").2 =
        [("k", 1000 + DEDUPE_TTL_MS)]) ∧
    ((shouldDeliver 999999999 [("k", 5)] "k").1 = true ∧
      lookupSent (shouldDeliver 999999999 [("k", 5)] "k").2 "k" =
        some (999999999 + DEDUPE_TTL_MS)) ∧
    lookupSent (sweepDedupe 999999999 [("k", 5)]) "k" = none := by
  refine ⟨(c8_dedupe_check [] "k" 1000 0 0).2.1 rfl, ?_, ?_, ?_⟩
  · exact (c8_dedupe_check [("k", 1000 + DEDUPE_TTL_MS)] "k" 0 2000
      (1000 + DEDUPE_TTL_MS)).2.2.2.1 rfl (by unfold DEDUPE_TTL_MS; omega)
      (by unfold DEDUPE_TTL_MS; omega)
  · exact (c8_dedupe_check [("k", 5)] "k" 999999999 0 5).2.2.1 rfl
      (by omega) (by omega)
  · exact (c8_dedupe_check [("k", 5)] "k" 999999999 0 5).2.2.2.2 rfl
      (by omega) (by decide)

/-- C9: a write failure for one live-channel consumer does not prevent
delivery to the remaining consumers (the per-consumer try/catch swallows
it, so nothing raises to the caller), and a consumer removed from the
active set by its disconnect signal does not receive the next publish,
which reaches every remaining consumer whose write succeeds. -/
theorem c9_broadcast_isolation (clients : List String)
    (write1 write2 : String → Except String Unit) (c : String) :
    (∀ x, x ∈ clients → write1 x = .ok () → x ∈ sseBroadcast clients write1) ∧
    c ∉ sseBroadcast (sseDelete clients c) write2 ∧
    (∀ x, x ∈ clients → x ≠ c → write2 x = .ok () →
      x ∈ sseBroadcast (sseDelete clients c) write2) := by
  refine ⟨fun x hx hw => mem_sseBroadcast clients write1 x hx hw, ?_, ?_⟩
  · intro hmem
    exact not_mem_sseDelete clients c (sseBroadcast_subset _ write2 c hmem)
  · intro x hx hne hw
    exact mem_sseBroadcast _ write2 x (mem_sseDelete_of clients c x hx hne) hw

/-- C9 witness: with consumers a, b, d, a write failure for b does not
stop delivery to a and d; after d disconnects, the second publish reaches
a and b but not d. -/
theorem c9_broadcast_isolation_witness :
    "a" ∈ sseBroadcast ["a", "b", "d"]
      (fun x => if x == "b" then .error "broken pipe" else .ok ()) ∧
    "d" ∈ sseBroadcast ["a", "b", "d"]
      (fun x => if x == "b" then .error "broken pipe" else .ok ()) ∧
    "d" ∉ sseBroadcast (sseDelete ["a", "b", "d"] "d") (fun _ => .ok ()) ∧
    "a" ∈ sseBroadcast (sseDelete ["a", "b", "d"] "d") (fun _ => .ok ()) ∧
    "b" ∈ sseBroadcast (sseDelete ["a", "b", "d"] "d") (fun _ => .ok ()) := by
  refine ⟨?_, ?_, ?_, ?_, ?_⟩
  · exact (c9_broadcast_isolation ["a", "b", "d"]
      (fun x => if x == "b" then .error "broken pipe" else .ok ()) (fun _ => .ok ()) "d").1
      "a" (by decide) (by rfl)
  · exact (c9_broadcast_isolation ["a", "b", "d"]
      (fun x => if x == "b" then .error "broken pipe" else .ok ()) (fun _ => .ok ()) "d").1
      "d" (by decide) (by rfl)
  · exact (c9_broadcast_isolation ["a", "b", "d"]
      (fun x => if x == "b" then .error "broken pipe" else .ok ()) (fun _ => .ok ()) "d").2.1
  · exact (c9_broadcast_isolation ["a", "b", "d"]
      (fun x => if x == "b" then .error "broken pipe" else .ok ()) (fun _ => .ok ()) "d").2.2
      "a" (by decide) (by decide) (by rfl)
  · exact (c9_broadcast_isolation ["a", "b", "d"]
      (fun x => if x == "b" then .error "broken pipe" else .ok ()) (fun _ => .ok ()) "d").2.2
      "b" (by decide) (by decide) (by rfl)

/-- C2: for every upstream behaviour, the timeline fetcher's pagination
loop fetches at most 10 pages; a pathological upstream that returns a
cursor on every page is cut off at exactly 10; and the loop halts early,
after page j, when page j carries no further cursor (absent, falsy, or
not a string) while all earlier pages carried one. -/
theorem c2_pagination_terminates {α : Type} (base apikey : String)
    (respond : Nat → ServerJs.TimelinePage α) :
    (ServerJs.fetchTimelineAll base apikey respond).pagesFetched ≤ 10 ∧
    ((∀ i, ServerJs.cursorOf (respond i).next ≠ none) →
      (ServerJs.fetchTimelineAll base apikey respond).pagesFetched = 10) ∧
    (∀ j, j < 10 → (∀ i, i < j → ServerJs.cursorOf (respond i).next ≠ none) →
      ServerJs.cursorOf (respond j).next = none →
      (ServerJs.fetchTimelineAll base apikey respond).pagesFetched = j + 1) := by
  refine ⟨ServerJs.fetchPagesAux_pages_le base apikey respond 10 0, ?_, ?_⟩
  · intro hall
    exact ServerJs.fetchPagesAux_all_next base apikey respond hall 10 0
  · intro j hj hprev hnone
    apply ServerJs.fetchPagesAux_halt base apikey respond 10 j 0 hj
    · intro i hi
      simpa using hprev i hi
    · simpa using hnone

/-- C2 witness: a pathological always-next upstream is stopped at exactly
10 pages, and an upstream whose second page has no cursor stops at 2. -/
theorem c2_pagination_terminates_witness :
    (ServerJs.fetchTimelineAll "B" "K"
      (fun _ => (⟨[0], ServerJs.NextField.str "n?x=1"⟩ : ServerJs.TimelinePage Nat))).pagesFetched
      = 10 ∧
    (ServerJs.fetchTimelineAll "B" "K"
      (fun i => if i = 0 then (⟨[0], ServerJs.NextField.str "n?x=1"⟩ : ServerJs.TimelinePage Nat)
        else ⟨[1], ServerJs.NextField.absent⟩)).pagesFetched = 2 := by
  constructor
  · exact (c2_pagination_terminates "B" "K" _).2.1 (fun i => by decide)
  · exact (c2_pagination_terminates "B" "K" _).2.2 1 (by decide)
      (fun i hi => by
        interval_cases i
        decide)
      (by decide)

/-- C3: when a page's cursor is present (absolute URL or relative path),
the fetcher reduces it to its query string and grafts that onto the
canonical base path (the follow-up URL is exactly `base` plus a
`?`-query), re-attaches the `apikey` credential whenever the cursor's
query omits it (the resolved URL always carries an `apikey` parameter),
and the followed page's rows are included in the returned entries. -/
theorem c3_cursor_resolution {α : Type} (base apikey rawNext : String)
    (respond : Nat → ServerJs.TimelinePage α)
    (hbq : '?' ∉ base.toList) (hbh : '#' ∉ base.toList)
    (h0 : ServerJs.cursorOf (respond 0).next = some rawNext)
    (h1 : ServerJs.cursorOf (respond 1).next = none) :
    (ServerJs.fetchTimelineAll base apikey respond).entries =
      (respond 0).rows ++ (respond 1).rows ∧
    (ServerJs.fetchTimelineAll base apikey respond).urls =
      [ServerJs.resolveNextUrl base apikey rawNext] ∧
    (∃ l, (ServerJs.resolveNextUrl base apikey rawNext).toList =
      base.toList ++ '?' :: l) ∧
    ServerJs.hasApikeyParam (ServerJs.extractSearch
      (ServerJs.resolveNextUrl base apikey rawNext)) = true := by
  have h2 := ServerJs.fetchTimelineAll_two_pages base apikey respond rawNext h0 h1
  refine ⟨?_, ?_, ServerJs.resolveNext_suffix base apikey rawNext,
    ServerJs.hasApikey_resolved base apikey rawNext hbq hbh⟩
  · rw [h2]
  · rw [h2]

/-- C3 witness: a relative cursor without the credential is resolved onto
the base with the apikey re-attached, and the second page's entries are
merged into the result. -/
theorem c3_cursor_resolution_witness :
    (ServerJs.fetchTimelineAll "base" "KEY"
      (fun i => if i = 0 then (⟨[10], ServerJs.NextField.str "df/tl?limit=50&next=x"⟩ :
        ServerJs.TimelinePage Nat) else ⟨[20], ServerJs.NextField.absent⟩)).entries =
      [10, 20] ∧
    (ServerJs.fetchTimelineAll "base" "KEY"
      (fun i => if i = 0 then (⟨[10], ServerJs.NextField.str "df/tl?limit=50&next=x"⟩ :
        ServerJs.TimelinePage Nat) else ⟨[20], ServerJs.NextField.absent⟩)).urls =
      ["base?limit=50&next=x&apikey=KEY"] ∧
    ServerJs.hasApikeyParam (ServerJs.extractSearch
      (ServerJs.resolveNextUrl "base" "KEY" "df/tl?limit=50&next=x")) = true := by
  have hc := c3_cursor_resolution "base" "KEY" "df/tl?limit=50&next=x"
    (fun i => if i = 0 then (⟨[10], ServerJs.NextField.str "df/tl?limit=50&next=x"⟩ :
      ServerJs.TimelinePage Nat) else ⟨[20], ServerJs.NextField.absent⟩)
    (by decide) (by decide) (by decide) (by decide)
  refine ⟨?_, ?_, hc.2.2.2⟩
  · rw [hc.1]
    decide
  · rw [hc.2.1]
    decide

/-- C4: a transport error at any page the part_002 pagination loop
reaches makes the whole fetch return that error — the pages already
collected in the same call are discarded, never partially committed; the
cycle then performs no delivery, leaves the dedupe map untouched and
leaves the last-checked timestamp unchanged; and for every cycle outcome,
the last-checked timestamp advances to the cycle's end time exactly when
the cycle completed successfully. -/
theorem c4_fetch_failure_no_commit (respond : Nat → Except String TimelinePage2)
    (j : Nat) (e : String) (now : Nat) (endISO : String) (wc : Bool)
    (wok : String → Bool) (detailOf : String → Option ItemInfo) (sub : Sub)
    (sent : SentMap) (hj : j < 10)
    (hprev : ∀ i, i < j → ∃ p, respond i = Except.ok p ∧ jsStrOpt p.next ≠ none)
    (herr : respond j = Except.error e) :
    fetchTimelineAll respond = Except.error e ∧
    handleOneSubscription now endISO wc wok detailOf sub (fetchTimelineAll respond) sent =
      ⟨[], [], [], sent, sub.lastCheckedISO, false⟩ ∧
    (∀ fr, (handleOneSubscription now endISO wc wok detailOf sub fr sent).lastCheckedISO =
      (if (handleOneSubscription now endISO wc wok detailOf sub fr sent).ok then endISO
        else sub.lastCheckedISO)) := by
  have hfe : fetchTimelineAll respond = Except.error e := by
    apply fetchTimelineAux_error respond e 10 j 0 hj
    · intro i hi
      simpa using hprev i hi
    · simpa using herr
  refine ⟨hfe, ?_, fun fr => handleOneSubscription_lastChecked now endISO wc wok
    detailOf sub fr sent⟩
  rw [hfe]
  rfl

/-- C4 witness: the second page errors; the fetch returns the error with
the first page's rows discarded, and the cycle leaves everything
unchanged. -/
theorem c4_fetch_failure_no_commit_witness :
    fetchTimelineAll (fun i => if i = 0
      then Except.ok ⟨[⟨some "A", some "T"⟩], some "next-url"⟩
      else Except.error "HTTP 500") = Except.error "HTTP 500" ∧
    handleOneSubscription 0 "E" true (fun _ => true)
      (fun _ => some ⟨some "N", "태초"⟩) ⟨"s", "c", "t0"⟩
      (fetchTimelineAll (fun i => if i = 0
        then Except.ok ⟨[⟨some "A", some "T"⟩], some "next-url"⟩
        else Except.error "HTTP 500")) [("old", 7)] =
      ⟨[], [], [], [("old", 7)], "t0", false⟩ := by
  have hc := c4_fetch_failure_no_commit (fun i => if i = 0
      then Except.ok ⟨[⟨some "A", some "T"⟩], some "next-url"⟩
      else Except.error "HTTP 500") 1 "HTTP 500" 0 "E" true (fun _ => true)
    (fun _ => some ⟨some "N", "태초"⟩) ⟨"s", "c", "t0"⟩ [("old", 7)]
    (by decide)
    (fun i hi => by
      interval_cases i
      exact ⟨⟨[⟨some "A", some "T"⟩], some "next-url"⟩, by rfl, by decide⟩)
    (by rfl)
  exact ⟨hc.1, hc.2.1⟩

/-- C10: in each cycle of the detail-lookup variant, the batched
item-detail request carries the cycle's item identifiers deduplicated and
truncated to the first 15 unique ones (at most 15, no duplicates, a
sublist of the collected identifiers); an identifier outside that batch
obtains no detail record, and every event whose identifier is outside the
batch is silently skipped — no broadcast payload for it exists, whatever
its actual rarity. -/
theorem c10_detail_truncation (events : List TimelineEvent) (now : Nat) (endISO : String)
    (wc : Bool) (wok : String → Bool) (detailOf : String → Option ItemInfo) (sub : Sub)
    (sent : SentMap) :
    (fetchItemsDetailIds (itemIdsOf events)).length ≤ 15 ∧
    (fetchItemsDetailIds (itemIdsOf events)).Nodup ∧
    List.Sublist (fetchItemsDetailIds (itemIdsOf events)) (itemIdsOf events) ∧
    (∀ id, id ∉ fetchItemsDetailIds (itemIdsOf events) →
      byIdLookup (fetchItemsDetailIds (itemIdsOf events)) detailOf id = none) ∧
    (∀ id, id ∉ fetchItemsDetailIds (itemIdsOf events) →
      ∀ p, p ∈ (handleOneSubscription now endISO wc wok detailOf sub
        (.ok events) sent).sse → p.itemId ≠ id) := by
  refine ⟨?_, ?_, ?_, ?_, ?_⟩
  · exact List.length_take_le 15 (dedupList (itemIdsOf events))
  · exact (dedupAux_nodup (itemIdsOf events) []).sublist
      (List.take_sublist 15 (dedupList (itemIdsOf events)))
  · exact (List.take_sublist 15 (dedupList (itemIdsOf events))).trans
      (dedupAux_sublist (itemIdsOf events) [])
  · intro id hid
    exact byIdLookup_not_requested _ detailOf id hid
  · intro id hid p hp
    cases he : events.isEmpty with
    | true =>
      rw [show handleOneSubscription now endISO wc wok detailOf sub (.ok events) sent =
          ⟨[], [], [], sent, endISO, true⟩ by simp [handleOneSubscription, he]] at hp
      cases hp
    | false =>
      rw [handleOneSubscription_eq now endISO wc wok detailOf sub events sent he] at hp
      obtain ⟨info, hbid, _⟩ := cycleLoop_sse_sound
        (subCycleCfg now endISO wc wok detailOf sub events) events sent p hp
      have hmem : p.itemId ∈ fetchItemsDetailIds (itemIdsOf events) :=
        byIdLookup_some_mem _ detailOf _ info hbid
      exact fun hh => hid (hh ▸ hmem)

/-- C10 witness: sixteen distinct identifiers in one cycle; the batch is
the first fifteen, the sixteenth has no detail record, and no payload for
it is broadcast even though its detail rarity would be the target. -/
theorem c10_detail_truncation_witness :
    (fetchItemsDetailIds (itemIdsOf
      (["a1", "a2", "a3", "a4", "a5", "a6", "a7", "a8", "a9", "b1", "b2", "b3",
        "b4", "b5", "b6", "b7"].map (fun s => ⟨some s, some "T"⟩)))).length ≤ 15 ∧
    byIdLookup (fetchItemsDetailIds (itemIdsOf
      (["a1", "a2", "a3", "a4", "a5", "a6", "a7", "a8", "a9", "b1", "b2", "b3",
        "b4", "b5", "b6", "b7"].map (fun s => ⟨some s, some "T"⟩))))
      (fun _ => some ⟨some "N", "태초"⟩) "b7" = none ∧
    ((handleOneSubscription 0 "E" true (fun _ => true) (fun _ => some ⟨some "N", "태초"⟩)
        ⟨"s", "c", "t0"⟩ (.ok (["a1", "a2", "a3", "a4", "a5", "a6", "a7", "a8", "a9",
          "b1", "b2", "b3", "b4", "b5", "b6", "b7"].map (fun s => ⟨some s, some "T"⟩)))
        []).sse.all (fun p => !(p.itemId == "b7"))) = true := by
  have hc := c10_detail_truncation
    (["a1", "a2", "a3", "a4", "a5", "a6", "a7", "a8", "a9", "b1", "b2", "b3",
      "b4", "b5", "b6", "b7"].map (fun s => ⟨some s, some "T"⟩))
    0 "E" true (fun _ => true) (fun _ => some ⟨some "N", "태초"⟩) ⟨"s", "c", "t0"⟩ []
  refine ⟨hc.1, hc.2.2.2.1 "b7" (by decide), ?_⟩
  rw [List.all_eq_true]
  intro p hp
  have hne := hc.2.2.2.2 "b7" (by decide) p hp
  simpa using hne

/-- C1: per dedupe key (entity key, item identifier and occurrence time
concatenated) and within the 48-hour retention window, delivery happens
at most once per sink: in the first cycle that sees a fresh key the event
is broadcast once and POSTed to the webhook once (webhook configured and
reachable), and any later cycle before the record expires delivers it
zero further times to either sink; once the record has expired, a cycle
that produces the same key delivers it again. -/
theorem c1_exactly_once (now1 now2 : Nat) (endISO1 endISO2 : String)
    (wok1 wok2 : String → Bool) (detailOf : String → Option ItemInfo)
    (sub : Sub) (evs1 evs2 : List TimelineEvent) (sent0 : SentMap) (k : String)
    (hok1 : ∀ s, wok1 s = true) (hok2 : ∀ s, wok2 s = true)
    (hfresh : (hasDedupe now1 sent0 k).1 = false)
    (hk1 : k ∈ producedKeys (subCycleCfg now1 endISO1 true wok1 detailOf sub evs1) evs1) :
    countKey k (handleOneSubscription now1 endISO1 true wok1 detailOf sub
      (.ok evs1) sent0).sse = 1 ∧
    countKey k (handleOneSubscription now1 endISO1 true wok1 detailOf sub
      (.ok evs1) sent0).web = 1 ∧
    (¬ now1 + DEDUPE_TTL_MS < now2 →
      countKey k (handleOneSubscription now2 endISO2 true wok2 detailOf sub (.ok evs2)
        (handleOneSubscription now1 endISO1 true wok1 detailOf sub
          (.ok evs1) sent0).sent).sse = 0 ∧
      countKey k (handleOneSubscription now2 endISO2 true wok2 detailOf sub (.ok evs2)
        (handleOneSubscription now1 endISO1 true wok1 detailOf sub
          (.ok evs1) sent0).sent).web = 0) ∧
    (now1 + DEDUPE_TTL_MS < now2 →
      k ∈ producedKeys (subCycleCfg now2 endISO2 true wok2 detailOf sub evs2) evs2 →
      countKey k (handleOneSubscription now2 endISO2 true wok2 detailOf sub (.ok evs2)
        (handleOneSubscription now1 endISO1 true wok1 detailOf sub
          (.ok evs1) sent0).sent).sse = 1 ∧
      countKey k (handleOneSubscription now2 endISO2 true wok2 detailOf sub (.ok evs2)
        (handleOneSubscription now1 endISO1 true wok1 detailOf sub
          (.ok evs1) sent0).sent).web = 1) := by
  have hne1 : evs1.isEmpty = false := by
    cases evs1 with
    | nil => exact absurd hk1 (by simp [producedKeys])
    | cons a l => rfl
  have heq1 := handleOneSubscription_eq now1 endISO1 true wok1 detailOf sub evs1 sent0 hne1
  obtain ⟨c1a, c1b, c1c, c1d⟩ := cycleLoop_first_delivery
    (subCycleCfg now1 endISO1 true wok1 detailOf sub evs1) k rfl hok1 evs1 sent0 hfresh hk1
  rw [show (subCycleCfg now1 endISO1 true wok1 detailOf sub evs1).now = now1 from rfl] at c1d
  have h0 : now1 + DEDUPE_TTL_MS ≠ 0 := by unfold DEDUPE_TTL_MS; omega
  refine ⟨by rw [heq1]; exact c1a, by rw [heq1]; exact c1c, ?_, ?_⟩
  · intro hwin
    cases hne2 : evs2.isEmpty with
    | true =>
      have : evs2 = [] := by
        cases evs2 with
        | nil => rfl
        | cons a l => cases hne2
      subst this
      rw [show handleOneSubscription now2 endISO2 true wok2 detailOf sub (.ok [])
          (handleOneSubscription now1 endISO1 true wok1 detailOf sub (.ok evs1) sent0).sent =
          ⟨[], [], [], (handleOneSubscription now1 endISO1 true wok1 detailOf sub
            (.ok evs1) sent0).sent, endISO2, true⟩ by
        simp [handleOneSubscription]]
      exact ⟨rfl, rfl⟩
    | false =>
      have heq2 := handleOneSubscription_eq now2 endISO2 true wok2 detailOf sub evs2
        (handleOneSubscription now1 endISO1 true wok1 detailOf sub (.ok evs1) sent0).sent hne2
      rw [heq2, heq1]
      obtain ⟨s1, s2, s3, _⟩ := cycleLoop_seen_skip
        (subCycleCfg now2 endISO2 true wok2 detailOf sub evs2) k (now1 + DEDUPE_TTL_MS)
        h0 hwin evs2 _ c1d
      exact ⟨s1, s3⟩
  · intro hexp hk2
    have hne2 : evs2.isEmpty = false := by
      cases evs2 with
      | nil => exact absurd hk2 (by simp [producedKeys])
      | cons a l => rfl
    have heq2 := handleOneSubscription_eq now2 endISO2 true wok2 detailOf sub evs2
      (handleOneSubscription now1 endISO1 true wok1 detailOf sub (.ok evs1) sent0).sent hne2
    have hfresh2 : (hasDedupe now2 (handleOneSubscription now1 endISO1 true wok1 detailOf
        sub (.ok evs1) sent0).sent k).1 = false := by
      rw [heq1, hasDedupe_fst, c1d]
      simp [dedupeHit, h0, hexp]
    obtain ⟨d1, _, d3, _⟩ := cycleLoop_first_delivery
      (subCycleCfg now2 endISO2 true wok2 detailOf sub evs2) k rfl hok2 evs2
      (handleOneSubscription now1 endISO1 true wok1 detailOf sub (.ok evs1) sent0).sent
      hfresh2 hk2
    rw [heq2]
    exact ⟨d1, d3⟩

/-- C1 witness: one concrete drop; the first cycle delivers it once to
each sink, a second cycle over the same window before expiry delivers
nothing, and a cycle after the 48-hour expiry delivers it again. -/
theorem c1_exactly_once_witness :
    countKey "cain:c1:A:T1" (handleOneSubscription 0 "E1" true (fun _ => true)
      (fun id => if id == "A" then some ⟨some "Sword", "태초"⟩ else none)
      ⟨"cain", "c1", "t0"⟩ (.ok [⟨some "A", some "T1"⟩]) []).sse = 1 ∧
    countKey "cain:c1:A:T1" (handleOneSubscription 0 "E1" true (fun _ => true)
      (fun id => if id == "A" then some ⟨some "Sword", "태초"⟩ else none)
      ⟨"cain", "c1", "t0"⟩ (.ok [⟨some "A", some "T1"⟩]) []).web = 1 ∧
    (countKey "cain:c1:A:T1" (handleOneSubscription 15000 "E2" true (fun _ => true)
      (fun id => if id == "A" then some ⟨some "Sword", "태초"⟩ else none)
      ⟨"cain", "c1", "t0"⟩ (.ok [⟨some "A", some "T1"⟩])
      (handleOneSubscription 0 "E1" true (fun _ => true)
        (fun id => if id == "A" then some ⟨some "Sword", "태초"⟩ else none)
        ⟨"cain", "c1", "t0"⟩ (.ok [⟨some "A", some "T1"⟩]) []).sent).sse = 0 ∧
    countKey "cain:c1:A:T1" (handleOneSubscription 15000 "E2" true (fun _ => true)
      (fun id => if id == "A" then some ⟨some "Sword", "태초"⟩ else none)
      ⟨"cain", "c1", "t0"⟩ (.ok [⟨some "A", some "T1"⟩])
      (handleOneSubscription 0 "E1" true (fun _ => true)
        (fun id => if id == "A" then some ⟨some "Sword", "태초"⟩ else none)
        ⟨"cain", "c1", "t0"⟩ (.ok [⟨some "A", some "T1"⟩]) []).sent).web = 0) ∧
    countKey "cain:c1:A:T1" (handleOneSubscription (DEDUPE_TTL_MS + 1) "E3" true
      (fun _ => true)
      (fun id => if id == "A" then some ⟨some "Sword", "태초"⟩ else none)
      ⟨"cain", "c1", "t0"⟩ (.ok [⟨some "A", some "T1"⟩])
      (handleOneSubscription 0 "E1" true (fun _ => true)
        (fun id => if id == "A" then some ⟨some "Sword", "태초"⟩ else none)
        ⟨"cain", "c1", "t0"⟩ (.ok [⟨some "A", some "T1"⟩]) []).sent).sse = 1 := by
  have hc := c1_exactly_once 0 15000 "E1" "E2" (fun _ => true) (fun _ => true)
    (fun id => if id == "A" then some ⟨some "Sword", "태초"⟩ else none)
    ⟨"cain", "c1", "t0"⟩ [⟨some "A", some "T1"⟩] [⟨some "A", some "T1"⟩] []
    "cain:c1:A:T1" (fun _ => rfl) (fun _ => rfl) (by decide) (by decide)
  have hc2 := c1_exactly_once 0 (DEDUPE_TTL_MS + 1) "E1" "E3" (fun _ => true)
    (fun _ => true)
    (fun id => if id == "A" then some ⟨some "Sword", "태초"⟩ else none)
    ⟨"cain", "c1", "t0"⟩ [⟨some "A", some "T1"⟩] [⟨some "A", some "T1"⟩] []
    "cain:c1:A:T1" (fun _ => rfl) (fun _ => rfl) (by decide) (by decide)
  have hwin : ¬ (0 : Nat) + DEDUPE_TTL_MS < 15000 := by unfold DEDUPE_TTL_MS; omega
  have hexp : (0 : Nat) + DEDUPE_TTL_MS < DEDUPE_TTL_MS + 1 := by omega
  exact ⟨hc.1, hc.2.1, hc.2.2.1 hwin, (hc2.2.2.2 hexp (by decide)).1⟩

/-- C5 counterexample: the claim's token rule accepts the rarity label
"mythic" (the `isAncientRarity` helper classifies it as target), yet the
detail-lookup polling pipeline excludes the very same entry from
detection — its gate is exact equality with "태초" — while the identical
entry with detail rarity "태초" is detected.  So "classified if and only
if the label contains one of the tokens" is false on the code. -/
theorem c5_classifier_counterexample :
    ServerJs.isAncientRarity (some "mythic") = true ∧
    (cycleLoop ⟨0, "E", "s", "c", false, fun _ => true,
      fun id => if id == "A" then some ⟨some "N", "mythic"⟩ else none⟩ []
      [⟨some "A", some "T"⟩]).sse = [] ∧
    (cycleLoop ⟨0, "E", "s", "c", false, fun _ => true,
      fun id => if id == "A" then some ⟨some "N", "태초"⟩ else none⟩ []
      [⟨some "A", some "T"⟩]).sse =
      [⟨"s:c:A:T", "s", "c", "N", "A", "T"⟩] := by
  refine ⟨by decide, by decide, by decide⟩

/-- C5 amended: the helper classifier `isAncientRarity` (used by the
timeline-rarity detection paths of src/server.js) accepts a rarity label
exactly when the label contains, case-insensitively, one of the tokens
"태초", "mythic", "ancient" as a substring, and rejects every non-string;
the detail-lookup polling variant of part_002 instead classifies an entry
as a target drop only when its resolved detail rarity is exactly the
string "태초". -/
theorem c5_amended_classification :
    (∀ s, ServerJs.isAncientRarity (some s) = true ↔
      ∃ tok, tok ∈ ["태초", "mythic", "ancient"] ∧
        List.IsInfix (ServerJs.lowerChars tok) (ServerJs.lowerChars s)) ∧
    ServerJs.isAncientRarity none = false ∧
    (∀ cfg sent evs p, p ∈ (cycleLoop cfg sent evs).sse →
      ∃ info, cfg.byId p.itemId = some info ∧ info.rarity = "태초") := by
  refine ⟨fun s => ?_, rfl, fun cfg sent evs p hp => cycleLoop_sse_sound cfg evs sent p hp⟩
  simp only [ServerJs.isAncientRarity, Bool.or_eq_true, ServerJs.subTok_iff]
  constructor
  · rintro ((h | h) | h)
    · exact ⟨"태초", by simp, h⟩
    · exact ⟨"mythic", by simp, h⟩
    · exact ⟨"ancient", by simp, h⟩
  · rintro ⟨tok, htok, h⟩
    simp only [List.mem_cons, List.not_mem_nil, or_false] at htok
    rcases htok with rfl | rfl | rfl
    · exact Or.inl (Or.inl h)
    · exact Or.inl (Or.inr h)
    · exact Or.inr h

/-- C5 amended witness: an upper-case label containing "mythic" is
accepted by the helper classifier via the token rule, and the payload
delivered by the concrete detail-lookup cycle has detail rarity exactly
"태초". -/
theorem c5_amended_classification_witness :
    ServerJs.isAncientRarity (some "MYTHIC Gear") = true ∧
    (∃ info, (⟨0, "E", "s", "c", false, fun _ => true,
        fun id => if id == "A" then some ⟨some "N", "태초"⟩ else none⟩ : CycleCfg).byId
        (⟨"s:c:A:T", "s", "c", "N", "A", "T"⟩ : DropPayload).itemId = some info ∧
      info.rarity = "태초") := by
  constructor
  · exact (c5_amended_classification.1 "MYTHIC Gear").mpr
      ⟨"mythic", by simp, ⟨[], " gear".toList, by decide⟩⟩
  · exact c5_amended_classification.2.2
      ⟨0, "E", "s", "c", false, fun _ => true,
        fun id => if id == "A" then some ⟨some "N", "태초"⟩ else none⟩ []
      [⟨some "A", some "T"⟩] ⟨"s:c:A:T", "s", "c", "N", "A", "T"⟩ (by decide)

/-- C6 counterexample: two qualifying events in one cycle, webhook
configured, and the webhook POST for the first event fails.  The failure
aborts the cycle: the second event — which the cycle provably produces —
is delivered to neither sink, no dedupe record is written, the cycle ends
unsuccessfully and the last-checked timestamp stays at its old value.  So
"a failing webhook POST never aborts the enclosing detection cycle or the
delivery of the remaining events" is false on the code. -/
theorem c6_webhook_abort_counterexample :
    "s:c:B:TB" ∈ producedKeys (subCycleCfg 0 "E" true (fun key => !(key == "s:c:A:TA"))
      (fun _ => some ⟨some "N", "태초"⟩) ⟨"s", "c", "t0"⟩
      [⟨some "A", some "TA"⟩, ⟨some "B", some "TB"⟩])
      [⟨some "A", some "TA"⟩, ⟨some "B", some "TB"⟩] ∧
    handleOneSubscription 0 "E" true (fun key => !(key == "s:c:A:TA"))
      (fun _ => some ⟨some "N", "태초"⟩) ⟨"s", "c", "t0"⟩
      (.ok [⟨some "A", some "TA"⟩, ⟨some "B", some "TB"⟩]) [] =
      ⟨[⟨"s:c:A:TA", "s", "c", "N", "A", "TA"⟩],
        [⟨"s:c:A:TA", "s", "c", "N", "A", "TA"⟩], [], [], "t0", false⟩ := by
  refine ⟨by decide, by decide⟩

/-- C6 amended: the notifier performs an outbound webhook attempt only
when an endpoint is configured (no endpoint, no attempt), at most one
attempt per dedupe key per cycle (no retry, no queue); but a failing
webhook POST propagates into the cycle's catch handler: the cycle ends
unsuccessfully and its last-checked timestamp is not advanced, so the
remaining events of that cycle are not delivered until a later cycle
re-covers the window. -/
theorem c6_amended_notifier (now : Nat) (endISO : String) (wok : String → Bool)
    (detailOf : String → Option ItemInfo) (sub : Sub) (evs : List TimelineEvent)
    (sent : SentMap) (k : String) (fr : Except String (List TimelineEvent)) (wc : Bool) :
    (handleOneSubscription now endISO false wok detailOf sub (.ok evs) sent).webAttempts
      = [] ∧
    countKey k (handleOneSubscription now endISO true wok detailOf sub
      (.ok evs) sent).webAttempts ≤ 1 ∧
    ((handleOneSubscription now endISO wc wok detailOf sub fr sent).ok = false →
      (handleOneSubscription now endISO wc wok detailOf sub fr sent).lastCheckedISO =
        sub.lastCheckedISO) := by
  refine ⟨?_, ?_, ?_⟩
  · cases he : evs.isEmpty with
    | true => simp [handleOneSubscription, he]
    | false =>
      rw [handleOneSubscription_eq now endISO false wok detailOf sub evs sent he]
      exact cycleLoop_noweb_attempts (subCycleCfg now endISO false wok detailOf sub evs)
        rfl evs sent
  · cases he : evs.isEmpty with
    | true => simp [handleOneSubscription, he, countKey]
    | false =>
      rw [handleOneSubscription_eq now endISO true wok detailOf sub evs sent he]
      exact cycleLoop_attempts_le_one (subCycleCfg now endISO true wok detailOf sub evs)
        k evs sent
  · intro ho
    rw [handleOneSubscription_lastChecked now endISO wc wok detailOf sub fr sent, ho]
    rfl

/-- C6 amended witness: with no endpoint configured the concrete cycle
makes no webhook attempt; with an endpoint the failing concrete cycle
attempts the first key exactly once and leaves the last-checked timestamp
at its old value. -/
theorem c6_amended_notifier_witness :
    (handleOneSubscription 0 "E" false (fun _ => true)
      (fun _ => some ⟨some "N", "태초"⟩) ⟨"s", "c", "t0"⟩
      (.ok [⟨some "A", some "TA"⟩, ⟨some "B", some "TB"⟩]) []).webAttempts = [] ∧
    countKey "s:c:A:TA" (handleOneSubscription 0 "E" true
      (fun key => !(key == "s:c:A:TA")) (fun _ => some ⟨some "N", "태초"⟩)
      ⟨"s", "c", "t0"⟩ (.ok [⟨some "A", some "TA"⟩, ⟨some "B", some "TB"⟩])
      []).webAttempts ≤ 1 ∧
    (handleOneSubscription 0 "E" true (fun key => !(key == "s:c:A:TA"))
      (fun _ => some ⟨some "N", "태초"⟩) ⟨"s", "c", "t0"⟩
      (.ok [⟨some "A", some "TA"⟩, ⟨some "B", some "TB"⟩]) []).lastCheckedISO = "t0" := by
  refine ⟨(c6_amended_notifier 0 "E" (fun _ => true) (fun _ => some ⟨some "N", "태초"⟩)
      ⟨"s", "c", "t0"⟩ [⟨some "A", some "TA"⟩, ⟨some "B", some "TB"⟩] [] "x"
      (.ok []) true).1,
    (c6_amended_notifier 0 "E" (fun key => !(key == "s:c:A:TA"))
      (fun _ => some ⟨some "N", "태초"⟩) ⟨"s", "c", "t0"⟩
      [⟨some "A", some "TA"⟩, ⟨some "B", some "TB"⟩] [] "s:c:A:TA"
      (.ok []) true).2.1, ?_⟩
  exact (c6_amended_notifier 0 "E" (fun key => !(key == "s:c:A:TA"))
    (fun _ => some ⟨some "N", "태초"⟩) ⟨"s", "c", "t0"⟩
    [⟨some "A", some "TA"⟩, ⟨some "B", some "TB"⟩] [] "s:c:A:TA"
    (.ok [⟨some "A", some "TA"⟩, ⟨some "B", some "TB"⟩]) true).2.2 (by decide)

/-- C7 counterexample: the scheduler guard starts a cycle whenever a
1-second tick finds at least 14.8 s elapsed since the previous cycle
*started* — completion is never consulted.  Over 30 ticks with no prior
run, cycles start at 15000 and 30000; with a cycle duration of 20000 ms
the first cycle is still running when the second starts, so "a new cycle
starts only after the previous cycle has fully finished" is false on the
code. -/
theorem c7_overlap_counterexample :
    runScheduler 0 (tickList 30) = [15000, 30000] ∧
    ¬ noOverlap (runScheduler 0 (tickList 30)) (fun _ => 20000) := by
  refine ⟨by decide, ?_⟩
  intro h
  have h0 := h 0 (by decide)
  rw [show runScheduler 0 (tickList 30) = [15000, 30000] by decide] at h0
  exact absurd h0 (by decide)

/-- C7 amended: the scheduler re-evaluates a subscription's due check at
every 1-second tick against the fixed 15-second poll interval minus a
200 ms slack, measured from the previous cycle's start; consecutive cycle
starts are therefore at least 14.8 s apart, and cycles never overlap
provided every cycle finishes within 14.8 s — a longer cycle can be
overlapped by the next one (the guard never waits for completion). -/
theorem c7_amended_scheduler (last0 : Nat) (ts : List Nat) (dur : Nat → Nat)
    (hdur : ∀ j, dur j ≤ POLL_INTERVAL_SEC * 1000 - 200) :
    List.Chain' (fun a b => a + (POLL_INTERVAL_SEC * 1000 - 200) ≤ b)
      (runScheduler last0 ts) ∧
    noOverlap (runScheduler last0 ts) dur := by
  refine ⟨runScheduler_chain ts last0, ?_⟩
  intro j hj
  have hlen : j < (runScheduler last0 ts).length - 1 := by omega
  have hch := List.chain'_iff_get.mp (runScheduler_chain ts last0) j hlen
  rw [List.getD_eq_get (runScheduler last0 ts) 0 (by omega),
    List.getD_eq_get (runScheduler last0 ts) 0 hj]
  have hd := hdur j
  omega

/-- C7 amended witness: with every cycle duration at 14 s, the two starts
produced by 30 ticks do not overlap. -/
theorem c7_amended_scheduler_witness :
    (runScheduler 0 (tickList 30)).getD 0 0 + 14000 ≤
      (runScheduler 0 (tickList 30)).getD 1 0 := by
  have hc := (c7_amended_scheduler 0 (tickList 30) (fun _ => 14000)
    (fun j => by
      show (14000 : Nat) ≤ POLL_INTERVAL_SEC * 1000 - 200
      decide)).2 0 (by decide)
  exact hc

end DFsniper
